import Mathlib

/-!
Verification development for the kbnf incremental grammar-constrained
recognizer (`src/kbnf/src/engine_base.rs` and the legacy core variant
`src/kbnf/src/engine.rs`).

The Rust source is shallowly embedded below.  Machine integers of the
generic widths `TI, TE, TD, TP, TSP, TS` are modelled as `Nat` (the claims
under study do not concern width overflow; the width facade refuses
grammars that would overflow, per the spec).  Hash maps and hash sets are
modelled as association lists resp. duplicate-free lists with a
deterministic iteration order.  The external components that are not part
of the source tree (the grammar store `grammar.rs`, the DFAs produced by
the regex backend, and the vocabulary `vocabulary.rs`) are modelled from
the spec where noted.

The `unreachable!` abort in Scan's `Except` dispatch is modelled by
returning `none`: every function that can reach it lives in the `Option`
monad, and `none` means the Rust program aborts.
-/

namespace Kbnf

/-- Operations of `AHashSet` modelled on duplicate-free lists: insert keeps
the set duplicate-free and appends fresh elements at the end (a fixed
deterministic iteration order standing in for the hash order). -/
def set_insert {α : Type} [DecidableEq α] (s : List α) (a : α) : List α :=
  if a ∈ s then s else s ++ [a]

/-- Lookup of `AHashMap` modelled on an association list. -/
def alist_get {κ ν : Type} [DecidableEq κ] (m : List (κ × ν)) (k : κ) : Option ν :=
  (m.find? (fun p => decide (p.1 = k))).map Prod.snd

/-- Insert-or-update of `AHashMap`: an existing key is updated in place, a
fresh key is appended at the end. -/
def alist_insert {κ ν : Type} [DecidableEq κ] (m : List (κ × ν)) (k : κ) (v : ν) :
    List (κ × ν) :=
  if (m.find? (fun p => decide (p.1 = k))).isSome then
    m.map (fun p => if p.1 = k then (k, v) else p)
  else m ++ [(k, v)]

/-- Removal of a key from an `AHashMap`. -/
def alist_remove {κ ν : Type} [DecidableEq κ] (m : List (κ × ν)) (k : κ) :
    List (κ × ν) :=
  m.filter (fun p => decide (p.1 ≠ k))

/-- The `ByteSet` insert (`fixedbitset` bit insert). -/
def byte_set_insert (s : List Nat) (b : Nat) : List Nat := set_insert s b

/-- The `ByteSet::union_with` operation. -/
def byte_set_union (s t : List Nat) : List Nat := t.foldl byte_set_insert s

/-- Iteration over the set bits of a 256-bit `ByteSet` in ascending bit
order, as `FixedBitSet::ones` does. -/
def byte_set_ones (s : List Nat) : List Nat :=
  (List.range 256).filter (fun b => decide (b ∈ s))

/-- Push an element onto the last row of a two-dimensional jagged array
(`JaggedArray::push_to_last_row`).  The source only calls this when at
least one row exists. -/
def push_to_last_row {α : Type} (sets : List (List α)) (a : α) : List (List α) :=
  sets.dropLast ++ [sets.getLastD [] ++ [a]]

/-- Classification of a DFA state (`utils::check_dfa_state_status`, used by
the `dispatch_by_dfa_state_status!` macro). -/
inductive DfaStatus : Type where
  | accept : DfaStatus
  | reject : DfaStatus
  | in_progress : DfaStatus
deriving DecidableEq, Repr

/-- Modelled from the spec: the already-built DFA consumed by the core
(spec section 4.2, "FSA adapter"; DFA construction is out of scope and the
`regex_automata` backend is an external crate).  It exposes a start state
for the start configuration it is used with (anchored for `Regex`,
unanchored for `Except`), a total transition function and a per-state
accept/reject/in-progress classification.  State identifiers are the
premultiplied ids of `regex_automata` (a compressed state index shifted
left by `stride2` bits). -/
structure Dfa : Type where
  stride2 : Nat
  start : Nat
  next : Nat → Nat → Nat
  status : Nat → DfaStatus

/-- A default DFA used only to totalize table lookups that the source
performs unchecked. -/
def default_dfa : Dfa := ⟨0, 0, fun _ _ => 0, fun _ => DfaStatus.reject⟩

/-- Modelled from the spec: `INVALID_REPETITION` (defined in `grammar.rs`,
which is not part of the source tree).  The sentinel in the repetition
field means "no finite bound"; its value is 0, consistently with the
zero-sized repetition type `Zero` the width facade uses for grammars
without repetition (whose only value converts to 0). -/
def INVALID_REPETITION : Nat := 0

/-- One RHS position of the lowered grammar (`HIRNode`). -/
inductive HIRNode : Type where
  | Terminal : Nat → HIRNode
  | RegexString : Nat → HIRNode
  | EXCEPT : Nat → Nat → HIRNode
  | Nonterminal : Nat → HIRNode
deriving DecidableEq, Repr

/-- Modelled from the spec: the immutable grammar store (`grammar.rs` is
not part of the source tree; spec section 4.1).  Productions are stored as
`rules[nonterminal][production] = list of nodes`, terminals, regex and
except automata and their first-byte summaries as indexed tables. -/
structure Grammar : Type where
  rules : List (List (List HIRNode))
  id_to_terminals : List (List Nat)
  id_to_regexes : List Dfa
  id_to_excepteds : List Dfa
  start_nonterminal_id : Nat
  first_bytes_from_regex : List (List Nat)
  first_bytes_from_excepted : List (List Nat)

/-- The node at `(nonterminal, dot, production)` (`Grammar::get_node`;
out-of-bounds accesses are unchecked in the source and given an arbitrary
total default here). -/
def get_node (g : Grammar) (nt dot prod : Nat) : HIRNode :=
  (((g.rules.getD nt []).getD prod []).getD dot (HIRNode.Nonterminal 0))

/-- The byte string of a terminal id (`Grammar::get_terminal`). -/
def get_terminal (g : Grammar) (tid : Nat) : List Nat :=
  g.id_to_terminals.getD tid []

/-- The DFA of a regex id (`Grammar::get_regex`). -/
def get_regex (g : Grammar) (rid : Nat) : Dfa :=
  g.id_to_regexes.getD rid default_dfa

/-- The DFA of an except! id (`Grammar::get_excepted`). -/
def get_excepted (g : Grammar) (eid : Nat) : Dfa :=
  g.id_to_excepteds.getD eid default_dfa

/-- The number of productions of a nonterminal
(`Grammar::get_production_len`). -/
def get_production_len (g : Grammar) (nt : Nat) : Nat :=
  (g.rules.getD nt []).length

/-- The number of nonterminals (`Grammar::get_nonterminals_size`). -/
def get_nonterminals_size (g : Grammar) : Nat := g.rules.length

/-- The `EarleyItem` struct: the five fields of an Earley item, with all
width-generic integers modelled as `Nat`. -/
structure EarleyItem : Type where
  nonterminal_id : Nat
  dot_position : Nat
  production_index : Nat
  start_position : Nat
  state_id : Nat
deriving DecidableEq, Repr

/-- The `ToBeCompletedItem` struct. -/
structure ToBeCompletedItem : Type where
  nonterminal_id : Nat
  start_position : Nat
deriving DecidableEq, Repr

/-- The `Dotted` struct: a postdot-index key. -/
structure Dotted : Type where
  postdot_nonterminal_id : Nat
  column : Nat
deriving DecidableEq, Repr

/-- The `PostDotItems` enum. -/
inductive PostDotItems : Type where
  | LeoEligible : EarleyItem → PostDotItems
  | NormalItems : List EarleyItem → PostDotItems
deriving DecidableEq, Repr

/-- The `EngineConfig` struct. -/
structure EngineConfig : Type where
  cache_enabled : Bool
  compaction_enabled : Bool
deriving DecidableEq, Repr

/-- Bit width of the state-id type `TS` (`STATE_ID_TYPE_BIT`); fixed to the
32-bit instantiation `TS = u32` used by the typical engine unions. -/
def STATE_ID_TYPE_BIT : Nat := 32

/-- Bit width of the repetition type `TE` (`EXCEPTED_ID_TYPE_BIT`); fixed
to the `TE = u8` instantiation. -/
def EXCEPTED_ID_TYPE_BIT : Nat := 8

/-- Conversion `from_state_id_to_index`. -/
def from_state_id_to_index (state_id : Nat) : Nat := state_id

/-- Conversion `from_index_to_state_id`. -/
def from_index_to_state_id (index : Nat) : Nat := index

/-- Conversion `from_dfa_state_id_to_state_id`: strip the stride bits of a
premultiplied DFA state id (`id >> stride2`). -/
def from_dfa_state_id_to_state_id (state_id stride2 : Nat) : Nat :=
  state_id / 2 ^ stride2

/-- Conversion `from_state_id_to_dfa_state_id`: restore the stride bits
(`state_id << stride2`). -/
def from_state_id_to_dfa_state_id (state_id stride2 : Nat) : Nat :=
  state_id * 2 ^ stride2

/-- Conversion `from_dfa_state_id_to_state_id_with_r`: pack the compressed
DFA state in the low bits and the remaining repetitions `r` in the high
`EXCEPTED_ID_TYPE_BIT` bits. -/
def from_dfa_state_id_to_state_id_with_r (state_id stride2 r : Nat) : Nat :=
  state_id / 2 ^ stride2 + r * 2 ^ (STATE_ID_TYPE_BIT - EXCEPTED_ID_TYPE_BIT)

/-- Conversion `from_state_id_to_dfa_state_id_with_r`: unpack a sub-state
word into the premultiplied DFA state id and the remaining repetitions. -/
def from_state_id_to_dfa_state_id_with_r (state_id stride2 : Nat) : Nat × Nat :=
  if EXCEPTED_ID_TYPE_BIT = 0 then
    (from_state_id_to_dfa_state_id state_id stride2, 0)
  else
    let r := state_id / 2 ^ (STATE_ID_TYPE_BIT - EXCEPTED_ID_TYPE_BIT)
    ((state_id - r * 2 ^ (STATE_ID_TYPE_BIT - EXCEPTED_ID_TYPE_BIT)) * 2 ^ stride2, r)

/-- The predicate `item_should_be_completed`: the dot has moved past the
end of the production.  Modelled from the spec (invariant I1) because the
dotted-production index the source consults lives in `grammar.rs`, outside
the source tree: advancing to `new_dot_position` completes the item iff the
production of `(nonterminal, production_index)` has length at most
`new_dot_position`. -/
def item_should_be_completed (g : Grammar) (nt new_dot prod : Nat) : Bool :=
  decide (((g.rules.getD nt []).getD prod []).length ≤ new_dot)

/-- The function `initialize_state_id_based_on_node`: the initial sub-state
word for a node (DFA start state for regex and except nodes, zero
otherwise). -/
def initialize_state_id_based_on_node (g : Grammar) (node : HIRNode) : Nat :=
  match node with
  | HIRNode.RegexString id =>
      let dfa := get_regex g id
      from_dfa_state_id_to_state_id dfa.start dfa.stride2
  | HIRNode.EXCEPT id r =>
      let dfa := get_excepted g id
      if r = INVALID_REPETITION then
        from_dfa_state_id_to_state_id dfa.start dfa.stride2
      else
        from_dfa_state_id_to_state_id_with_r dfa.start dfa.stride2 r
  | _ => 0

/-- The function `advance_item`: advance the dot of an item; a completed
item goes to the to-be-completed set, otherwise the advanced item (with a
freshly initialized sub-state) is handed to `add_to_earley_set`. -/
def advance_item {σ : Type} (g : Grammar) (add_to_earley_set : EarleyItem → σ → σ)
    (item : EarleyItem) (to_be_completed_items : List ToBeCompletedItem) (acc : σ) :
    List ToBeCompletedItem × σ :=
  let new_dotted_position := item.dot_position + 1
  if item_should_be_completed g item.nonterminal_id new_dotted_position
      item.production_index then
    (set_insert to_be_completed_items
      ⟨item.nonterminal_id, item.start_position⟩, acc)
  else
    let new_item : EarleyItem :=
      { item with
        dot_position := new_dotted_position
        state_id := initialize_state_id_based_on_node g
          (get_node g item.nonterminal_id new_dotted_position
            item.production_index) }
    (to_be_completed_items, add_to_earley_set new_item acc)

/-- The body of the Scan loop for a single item of the previous Earley set
(`scan`, lines 1072-1220 of `engine_base.rs`): the accumulator carries the
new Earley set under construction and the to-be-completed set; `none`
models the `unreachable!` abort of the `Except` reject branch. -/
def scan_item (g : Grammar) (byte : Nat) (acc : List EarleyItem × List ToBeCompletedItem)
    (item : EarleyItem) : Option (List EarleyItem × List ToBeCompletedItem) :=
  let new_set := acc.1
  let to_be_completed_items := acc.2
  match get_node g item.nonterminal_id item.dot_position item.production_index with
  | HIRNode.Terminal terminal_id =>
      let terminal := get_terminal g terminal_id
      let index := from_state_id_to_index item.state_id
      if terminal.getD index 256 = byte then
        let index := index + 1
        if index ≠ terminal.length then
          some (new_set ++ [{ item with state_id := from_index_to_state_id index }],
            to_be_completed_items)
        else
          let a := advance_item g (fun it s => s ++ [it]) item
            to_be_completed_items new_set
          some (a.2, a.1)
      else some (new_set, to_be_completed_items)
  | HIRNode.RegexString regex_id =>
      let dfa := get_regex g regex_id
      let state_id := from_state_id_to_dfa_state_id item.state_id dfa.stride2
      let state_id := dfa.next state_id byte
      match dfa.status state_id with
      | DfaStatus.accept =>
          let a := advance_item g (fun it s => s ++ [it]) item
            to_be_completed_items new_set
          some (a.2 ++ [{ item with
            state_id := from_dfa_state_id_to_state_id state_id dfa.stride2 }], a.1)
      | DfaStatus.reject => some (new_set, to_be_completed_items)
      | DfaStatus.in_progress =>
          some (new_set ++ [{ item with
            state_id := from_dfa_state_id_to_state_id state_id dfa.stride2 }],
            to_be_completed_items)
  | HIRNode.EXCEPT excepted_id _ =>
      let dfa := get_excepted g excepted_id
      let p := from_state_id_to_dfa_state_id_with_r item.state_id dfa.stride2
      let state_id := dfa.next p.1 byte
      let r := p.2
      match dfa.status state_id with
      | DfaStatus.accept => some (new_set, to_be_completed_items)
      | DfaStatus.reject => none
      | DfaStatus.in_progress =>
          if r = INVALID_REPETITION then
            let a := advance_item g (fun it s => s ++ [it]) item
              to_be_completed_items new_set
            some (a.2 ++ [{ item with
              state_id := from_dfa_state_id_to_state_id state_id dfa.stride2 }], a.1)
          else
            let r := r - 1
            if r = INVALID_REPETITION then
              let a := advance_item g (fun it s => s ++ [it]) item
                to_be_completed_items new_set
              some (a.2, a.1)
            else
              let a := advance_item g (fun it s => s ++ [it]) item
                to_be_completed_items new_set
              some (a.2 ++ [{ item with
                state_id := from_dfa_state_id_to_state_id_with_r state_id
                  dfa.stride2 r }], a.1)
  | HIRNode.Nonterminal _ => some (new_set, to_be_completed_items)

/-- The Scan stage (`scan`): create the next Earley set and feed `byte` to
every item of the previous one. -/
def scan (g : Grammar) (earley_sets : List (List EarleyItem))
    (to_be_completed_items : List ToBeCompletedItem) (byte : Nat) :
    Option (List (List EarleyItem) × List ToBeCompletedItem) := do
  let row := earley_sets.getLastD []
  let res ← row.foldlM (scan_item g byte) ([], to_be_completed_items)
  some (earley_sets ++ [res.1], res.2)

/-- The first loop of `update_postdot_items`: record every item of the last
set whose next node is a nonterminal under its `Dotted` key; a fresh key
starts life as `LeoEligible` and is tracked in `added_postdot_items`. -/
def update_postdot_items_record (g : Grammar) (earley_set_index : Nat)
    (acc : List (Dotted × PostDotItems) × List Dotted) (item : EarleyItem) :
    List (Dotted × PostDotItems) × List Dotted :=
  let postdot_items := acc.1
  let added_postdot_items := acc.2
  match get_node g item.nonterminal_id item.dot_position item.production_index with
  | HIRNode.Nonterminal nonterminal =>
      let postdot : Dotted := ⟨nonterminal, earley_set_index⟩
      match alist_get postdot_items postdot with
      | some (PostDotItems.LeoEligible old_item) =>
          (alist_insert postdot_items postdot
            (PostDotItems.NormalItems [old_item, item]), added_postdot_items)
      | some (PostDotItems.NormalItems items) =>
          (alist_insert postdot_items postdot
            (PostDotItems.NormalItems (items ++ [item])), added_postdot_items)
      | none =>
          (alist_insert postdot_items postdot (PostDotItems.LeoEligible item),
            set_insert added_postdot_items postdot)
  | _ => (postdot_items, added_postdot_items)

/-- The second loop of `update_postdot_items`: demote every `LeoEligible`
entry whose item would not be completed by the next dot advance. -/
def update_postdot_items_demote (g : Grammar) (v : PostDotItems) : PostDotItems :=
  match v with
  | PostDotItems.LeoEligible item =>
      if ¬ item_should_be_completed g item.nonterminal_id (item.dot_position + 1)
          item.production_index then
        PostDotItems.NormalItems [item]
      else v
  | _ => v

/-- The Postdot-update stage (`update_postdot_items`). -/
def update_postdot_items (g : Grammar) (earley_sets : List (List EarleyItem))
    (postdot_items : List (Dotted × PostDotItems))
    (added_postdot_items : List Dotted) :
    List (Dotted × PostDotItems) × List Dotted :=
  let earley_set_index := earley_sets.length - 1
  let earley_set := earley_sets.getLastD []
  let rec1 := earley_set.foldl (update_postdot_items_record g earley_set_index)
    (postdot_items, added_postdot_items)
  (rec1.1.map (fun p => (p.1, update_postdot_items_demote g p.2)), rec1.2)

/-- The chain walk inside `try_leo_complete_item` (`while is_leo`), with
explicit fuel standing in for the source's unbounded loop; the fuel the
callers pass is large enough for every chain of distinct postdot keys. -/
def leo_chain_walk (postdot_items : List (Dotted × PostDotItems)) :
    Nat → ToBeCompletedItem → List ToBeCompletedItem →
    List ToBeCompletedItem × ToBeCompletedItem
  | 0, topmost_item, leo_items_buffer => (leo_items_buffer, topmost_item)
  | fuel + 1, topmost_item, leo_items_buffer =>
      match alist_get postdot_items
        ⟨topmost_item.nonterminal_id, topmost_item.start_position⟩ with
      | some (PostDotItems.LeoEligible leo_item) =>
          leo_chain_walk postdot_items fuel
            ⟨leo_item.nonterminal_id, leo_item.start_position⟩
            (leo_items_buffer ++
              [⟨topmost_item.nonterminal_id, topmost_item.start_position⟩])
      | some (PostDotItems.NormalItems _) => (leo_items_buffer, topmost_item)
      | none => (leo_items_buffer, topmost_item)

/-- The function `try_leo_complete_item`: memoized Leo chain collapse.
Returns the updated buffer, the updated memo and the topmost item the chain
reached, if any. -/
def try_leo_complete_item (leo_items_buffer : List ToBeCompletedItem)
    (leo_items : List (ToBeCompletedItem × ToBeCompletedItem))
    (postdot_items : List (Dotted × PostDotItems))
    (topmost_item : ToBeCompletedItem) :
    List ToBeCompletedItem × List (ToBeCompletedItem × ToBeCompletedItem) ×
      Option ToBeCompletedItem :=
  match alist_get leo_items topmost_item with
  | some leo_item => (leo_items_buffer, leo_items, some leo_item)
  | none =>
      let w := leo_chain_walk postdot_items (postdot_items.length + 1)
        topmost_item []
      let buf := w.1
      let top := w.2
      if buf.isEmpty then (buf, leo_items, none)
      else
        (buf, buf.foldl (fun m k => alist_insert m k top) leo_items, some top)

/-- The function `earley_complete_one_item`: advance every normal postdot
item waiting for the completed pair, staging the advanced items in the
deduplication buffer and new completions in the to-be-completed buffer, and
raise `finished` when the start symbol completes at origin 0. -/
def earley_complete_one_item (g : Grammar) (to_be_completed_item : ToBeCompletedItem)
    (postdot_items : List (Dotted × PostDotItems))
    (acc : List ToBeCompletedItem × List EarleyItem × Bool) :
    List ToBeCompletedItem × List EarleyItem × Bool :=
  let to_be_completed_items_buffer := acc.1
  let deduplication_buffer := acc.2.1
  let is_finished := acc.2.2
  let step :=
    match alist_get postdot_items
      ⟨to_be_completed_item.nonterminal_id, to_be_completed_item.start_position⟩ with
    | some (PostDotItems.NormalItems items) =>
        items.foldl (fun a item =>
          advance_item g (fun it s => set_insert s it) item a.1 a.2)
          (to_be_completed_items_buffer, deduplication_buffer)
    | _ => (to_be_completed_items_buffer, deduplication_buffer)
  let is_finished :=
    if g.start_nonterminal_id = to_be_completed_item.nonterminal_id ∧
        to_be_completed_item.start_position = 0 then true else is_finished
  (step.1, step.2, is_finished)

/-- One drain round of the Complete loop: run every pending item through
the Leo attempt and `earley_complete_one_item`. -/
def complete_round (g : Grammar) (postdot_items : List (Dotted × PostDotItems))
    (pending : List ToBeCompletedItem)
    (acc : List ToBeCompletedItem ×
      List (ToBeCompletedItem × ToBeCompletedItem) × List ToBeCompletedItem ×
      List EarleyItem × Bool) :
    List ToBeCompletedItem ×
      List (ToBeCompletedItem × ToBeCompletedItem) × List ToBeCompletedItem ×
      List EarleyItem × Bool :=
  pending.foldl (fun a item =>
    let leo_items_buffer := a.1
    let leo_items := a.2.1
    let tl := try_leo_complete_item leo_items_buffer leo_items postdot_items item
    let target := match tl.2.2 with
      | some topmost_item => topmost_item
      | none => item
    let e := earley_complete_one_item g target postdot_items
      (a.2.2.1, a.2.2.2.1, a.2.2.2.2)
    (tl.1, tl.2.1, e)) acc

/-- The fixed-point loop of Complete (`while !to_be_completed_items.is_empty()`
with the buffer swap), with explicit fuel standing in for the source's
unbounded loop. -/
def complete_loop (g : Grammar) (postdot_items : List (Dotted × PostDotItems)) :
    Nat → List ToBeCompletedItem →
    List ToBeCompletedItem × List (ToBeCompletedItem × ToBeCompletedItem) ×
      List ToBeCompletedItem × List EarleyItem × Bool →
    List (ToBeCompletedItem × ToBeCompletedItem) × List ToBeCompletedItem ×
      List EarleyItem × Bool
  | 0, _, acc => (acc.2.1, acc.1, acc.2.2.2.1, acc.2.2.2.2)
  | fuel + 1, to_be_completed_items, acc =>
      if to_be_completed_items.isEmpty then
        (acc.2.1, acc.1, acc.2.2.2.1, acc.2.2.2.2)
      else
        let r := complete_round g postdot_items to_be_completed_items
          (acc.1, acc.2.1, [], acc.2.2.2.1, acc.2.2.2.2)
        complete_loop g postdot_items fuel r.2.2.1
          (r.1, r.2.1, [], r.2.2.2.1, r.2.2.2.2)

/-- The Complete stage (`complete`): run completions to a fixed point, then
drain the deduplication buffer into the last Earley set.  The result packs
the new sets, the emptied to-be-completed sets, the Leo memo, the Leo
buffer and the finished flag. -/
def complete (g : Grammar) (earley_sets : List (List EarleyItem))
    (to_be_completed_items : List ToBeCompletedItem)
    (leo_items : List (ToBeCompletedItem × ToBeCompletedItem))
    (leo_items_buffer : List ToBeCompletedItem)
    (postdot_items : List (Dotted × PostDotItems))
    (deduplication_buffer : List EarleyItem) (finished : Bool) :
    List (List EarleyItem) × List (ToBeCompletedItem × ToBeCompletedItem) ×
      List ToBeCompletedItem × Bool :=
  let fuel := get_nonterminals_size g * (earley_sets.length + 1) + 1
  let r := complete_loop g postdot_items fuel to_be_completed_items
    (leo_items_buffer, leo_items, [], deduplication_buffer, finished)
  let drained := r.2.2.1
  (earley_sets.dropLast ++ [earley_sets.getLastD [] ++ drained],
    r.1, r.2.1, r.2.2.2)

/-- The function `predict_nonterminal`: insert one item per production of a
not-yet-predicted nonterminal at dot 0 in the current set; returns the new
items and the updated already-predicted bitset. -/
def predict_nonterminal (g : Grammar) (already_predicted_nonterminals : List Nat)
    (nonterminal_id earley_set_index : Nat) : List EarleyItem × List Nat :=
  if nonterminal_id ∈ already_predicted_nonterminals then
    ([], already_predicted_nonterminals)
  else
    let new_items := (List.range (get_production_len g nonterminal_id)).map
      (fun j =>
        ({ nonterminal_id := nonterminal_id
           dot_position := 0
           production_index := j
           start_position := earley_set_index
           state_id := initialize_state_id_based_on_node g
             (get_node g nonterminal_id 0 j) } : EarleyItem))
    (new_items, set_insert already_predicted_nonterminals nonterminal_id)

/-- The index-driven loop of Predict (`while i < earley_set_len` with the
set growing under the loop), with explicit fuel; the fuel `predict` passes
is sufficient because every nonterminal is predicted at most once. -/
def predict_loop (g : Grammar) (earley_set_index : Nat) :
    Nat → Nat → List EarleyItem → List Nat → List EarleyItem × List Nat
  | 0, _, row, already => (row, already)
  | fuel + 1, i, row, already =>
      if h : i < row.length then
        let item := row.get ⟨i, h⟩
        match get_node g item.nonterminal_id item.dot_position
          item.production_index with
        | HIRNode.Nonterminal nonterminal_id =>
            let p := predict_nonterminal g already nonterminal_id earley_set_index
            predict_loop g earley_set_index fuel (i + 1) (row ++ p.1) p.2
        | _ => predict_loop g earley_set_index fuel (i + 1) row already
      else (row, already)

/-- The total number of productions of the grammar, used to bound the
Predict loop. -/
def total_productions (g : Grammar) : Nat := (g.rules.map List.length).sum

/-- The Predict stage (`predict`): close the last Earley set under
prediction; the already-predicted bitset is cleared at the end. -/
def predict (g : Grammar) (earley_sets : List (List EarleyItem))
    (already_predicted_nonterminals : List Nat) :
    List (List EarleyItem) × List Nat :=
  let earley_set_index := earley_sets.length - 1
  let row := earley_sets.getLastD []
  let fuel := row.length + total_productions g + 1
  let p := predict_loop g earley_set_index fuel 0 row
    already_predicted_nonterminals
  (earley_sets.dropLast ++ [p.1], [])

/-- The function `advance_item` of the legacy core variant
(`src/kbnf/src/engine.rs`, lines 417-438): like `advance_item` but the
advanced item keeps its old sub-state word. -/
def variant_advance_item (g : Grammar) (item : EarleyItem)
    (to_be_completed_items : List ToBeCompletedItem) (new_set : List EarleyItem) :
    List ToBeCompletedItem × List EarleyItem :=
  let new_dotted_position := item.dot_position + 1
  if item_should_be_completed g item.nonterminal_id new_dotted_position
      item.production_index then
    (set_insert to_be_completed_items
      ⟨item.nonterminal_id, item.start_position⟩, new_set)
  else
    (to_be_completed_items, new_set ++ [{ item with
      dot_position := new_dotted_position }])

/-- The body of the legacy variant's Scan loop (`src/kbnf/src/engine.rs`,
lines 489-523) for one item: the `Terminal` arm matches bytes against the
terminal; the `RegexString` arm fetches the regex automaton and produces
nothing; the match has no further arms. -/
def variant_scan_item (g : Grammar) (byte : Nat)
    (acc : List EarleyItem × List ToBeCompletedItem) (item : EarleyItem) :
    List EarleyItem × List ToBeCompletedItem :=
  let new_set := acc.1
  let to_be_completed_items := acc.2
  match get_node g item.nonterminal_id item.dot_position item.production_index with
  | HIRNode.Terminal terminal_id =>
      let terminal := get_terminal g terminal_id
      let index := from_state_id_to_index item.state_id
      if terminal.getD index 256 = byte then
        let index := index + 1
        if index < terminal.length then
          (new_set ++ [{ item with state_id := from_index_to_state_id index }],
            to_be_completed_items)
        else
          let a := variant_advance_item g item to_be_completed_items new_set
          (a.2, a.1)
      else (new_set, to_be_completed_items)
  | _ => (new_set, to_be_completed_items)

/-- The Scan stage of the legacy core variant (`src/kbnf/src/engine.rs`,
lines 486-524): iterate over the items currently in the last set (its
length captured before the loop) and push continuations onto that same
last row (the variant creates no new row inside `scan`). -/
def variant_scan (g : Grammar) (earley_sets : List (List EarleyItem))
    (to_be_completed_items : List ToBeCompletedItem) (byte : Nat) :
    List (List EarleyItem) × List ToBeCompletedItem :=
  let row := earley_sets.getLastD []
  let res := row.foldl (variant_scan_item g byte) (row, to_be_completed_items)
  (earley_sets.dropLast ++ [res.1], res.2)

/-- The state-carrying fields of the `EngineBase` struct.  The immutable
reference-counted grammar and vocabulary are passed to the operations as
separate arguments; the `cache` field is omitted because no operation of
this source reads or writes it. -/
structure EngineState : Type where
  allowed_first_bytes : List Nat
  allowed_token_ids : List Nat
  earley_sets : List (List EarleyItem)
  to_be_completed_items : List ToBeCompletedItem
  to_be_completed_items_buffer : List ToBeCompletedItem
  deduplication_buffer : List EarleyItem
  postdot_items : List (Dotted × PostDotItems)
  postdot_items_since_last_commit : List Dotted
  leo_items : List (ToBeCompletedItem × ToBeCompletedItem)
  leo_items_buffer : List ToBeCompletedItem
  already_predicted_nonterminals : List Nat
  finished : Bool
  config : EngineConfig
deriving DecidableEq, Repr

/-- The function `update_allowed_first_bytes`: rebuild the first-byte
prefilter from the last Earley set.  Note the source inserts the first byte
`terminal[0]` of a terminal regardless of the item's progress through the
terminal. -/
def update_allowed_first_bytes (g : Grammar) (e : EngineState) : EngineState :=
  let earley_set := e.earley_sets.getLastD []
  { e with allowed_first_bytes :=
      earley_set.foldl (fun s item =>
        match get_node g item.nonterminal_id item.dot_position
          item.production_index with
        | HIRNode.Terminal terminal_id =>
            byte_set_insert s ((get_terminal g terminal_id).getD 0 256)
        | HIRNode.RegexString regex_id =>
            byte_set_union s (g.first_bytes_from_regex.getD regex_id [])
        | HIRNode.EXCEPT excepted_id _ =>
            byte_set_union s (g.first_bytes_from_excepted.getD excepted_id [])
        | _ => s) [] }

/-- The function `revert_change`: truncate the chart to
`earley_set_length` rows, clear `finished`, and remove every postdot key
added since the last commit. -/
def revert_change (e : EngineState) (earley_set_length : Nat) : EngineState :=
  { e with
    earley_sets := e.earley_sets.take earley_set_length
    finished := false
    postdot_items := e.postdot_items_since_last_commit.foldl alist_remove
      e.postdot_items
    postdot_items_since_last_commit := [] }

/-- The function `commit_change`: forget the since-last-commit tracking,
making the most recent extensions permanent. -/
def commit_change (e : EngineState) : EngineState :=
  { e with postdot_items_since_last_commit := [] }

/-- The predicate `is_rejected`: the newest Earley set is empty and nothing
is pending completion. -/
def is_rejected (earley_sets : List (List EarleyItem))
    (to_be_completed_items : List ToBeCompletedItem) : Bool :=
  (earley_sets.getLastD []).isEmpty ∧ to_be_completed_items.isEmpty

/-- The `AcceptTokenError` enum of `engine_like.rs` (the trait module is
not part of the source tree; the three variants are those
`try_accept_new_token` constructs). -/
inductive AcceptTokenError : Type where
  | Finished : AcceptTokenError
  | UnknownTokenID : AcceptTokenError
  | Rejected : AcceptTokenError
deriving DecidableEq, Repr

/-- The `AcceptTokenResult` enum of `engine_like.rs`. -/
inductive AcceptTokenResult : Type where
  | Ongoing : AcceptTokenResult
  | Finished : AcceptTokenResult
deriving DecidableEq, Repr

/-- Outcome of one `accept_byte` call: `ok` on success, `rejected` with
the reverted state when the byte is rejected (the only error `accept_byte`
produces). -/
inductive ByteStepResult : Type where
  | ok : EngineState → ByteStepResult
  | rejected : EngineState → ByteStepResult
deriving DecidableEq, Repr

/-- The function `accept_byte`: one atomic Scan, Complete, Predict,
Postdot-update step.  A step on a finished recognizer or a step whose Scan
strands the chart is rolled back to `previous_earley_set_length` and
rejected; `none` models the abort inside Scan. -/
def accept_byte (g : Grammar) (e : EngineState)
    (previous_earley_set_length byte : Nat) : Option ByteStepResult := do
  if e.finished then
    some (ByteStepResult.rejected (revert_change e previous_earley_set_length))
  else
    let s ← scan g e.earley_sets e.to_be_completed_items byte
    let e := { e with earley_sets := s.1, to_be_completed_items := s.2 }
    if is_rejected e.earley_sets e.to_be_completed_items then
      some (ByteStepResult.rejected (revert_change e previous_earley_set_length))
    else
      let c := complete g e.earley_sets e.to_be_completed_items e.leo_items
        e.leo_items_buffer e.postdot_items e.deduplication_buffer e.finished
      let e := { e with
        earley_sets := c.1
        to_be_completed_items := []
        to_be_completed_items_buffer := []
        deduplication_buffer := []
        leo_items := c.2.1
        leo_items_buffer := c.2.2.1
        finished := c.2.2.2 }
      let p := predict g e.earley_sets e.already_predicted_nonterminals
      let e := { e with earley_sets := p.1, already_predicted_nonterminals := p.2 }
      let u := update_postdot_items g e.earley_sets e.postdot_items
        e.postdot_items_since_last_commit
      some (ByteStepResult.ok { e with
        postdot_items := u.1
        postdot_items_since_last_commit := u.2 })

/-- The byte loop of `try_accept_new_token` (`for byte in token` with `?`
propagation): feed the bytes in order, stopping at the first rejection. -/
def feed_bytes (g : Grammar) (e : EngineState)
    (previous_earley_set_length : Nat) : List Nat → Option ByteStepResult
  | [] => some (ByteStepResult.ok e)
  | byte :: rest => do
      match ← accept_byte g e previous_earley_set_length byte with
      | ByteStepResult.ok e' => feed_bytes g e' previous_earley_set_length rest
      | ByteStepResult.rejected e' => some (ByteStepResult.rejected e')

/-- One event of the vocabulary prefix iterator.  Modelled from the spec
(section 4.6; `vocabulary.rs` is not part of the source tree): a
`new_token` event marks a token boundary and carries the value
`get_current_token_id` returns right after it, namely the id of the token
whose bytes follow (`none` at the trailing boundary). -/
inductive TokenIterItem : Type where
  | token_byte : Nat → TokenIterItem
  | new_token : Option Nat → TokenIterItem
deriving DecidableEq, Repr

/-- Modelled from the spec: the `Vocabulary` (section 6).  Normal tokens
and separator-containing tokens are disjoint id-to-bytes tables;
`vocab_size` is the size reported to `mask_logits`. -/
structure Vocabulary : Type where
  tokens : List (Nat × List Nat)
  separator_tokens : List (Nat × List Nat)
  vocab_size : Nat
deriving DecidableEq, Repr

/-- Modelled from the spec: `Vocabulary::get_token_from_token_id`. -/
def get_token_from_token_id (v : Vocabulary) (token_id : Nat) :
    Option (List Nat) :=
  alist_get (v.tokens ++ v.separator_tokens) token_id

/-- Modelled from the spec: the event stream of
`get_normal_tokens_from_first_byte`, walking every normal token whose
first byte is `byte`: a boundary event announcing each token precedes its
bytes, and a trailing boundary closes the walk. -/
def get_normal_tokens_from_first_byte (v : Vocabulary) (byte : Nat) :
    List TokenIterItem :=
  let toks := v.tokens.filter (fun p => decide (p.2.headD 256 = byte))
  (toks.flatMap (fun p =>
    TokenIterItem.new_token (some p.1) :: p.2.map TokenIterItem.token_byte)) ++
    (if toks.isEmpty then [] else [TokenIterItem.new_token none])

/-- The function `try_accept_new_token`: feed the token's bytes, commit on
success and report whether the derivation finished. -/
def try_accept_new_token (g : Grammar) (v : Vocabulary) (e : EngineState)
    (token_id : Nat) :
    Option (EngineState × Except AcceptTokenError AcceptTokenResult) := do
  if e.finished then
    some (e, Except.error AcceptTokenError.Finished)
  else
    match get_token_from_token_id v token_id with
    | none => some (e, Except.error AcceptTokenError.UnknownTokenID)
    | some token =>
        let len := e.earley_sets.length
        match ← feed_bytes g e len token with
        | ByteStepResult.rejected e' =>
            some (e', Except.error AcceptTokenError.Rejected)
        | ByteStepResult.ok e' =>
            let e' := commit_change e'
            if e'.finished then
              some (e', Except.ok AcceptTokenResult.Finished)
            else
              some (e', Except.ok AcceptTokenResult.Ongoing)

mutual

/-- The `'outer` probe loop of `compute_allowed_token_ids` over one
first-byte event stream: feed token bytes speculatively, revert at every
boundary and record the id of a token whose bytes were all accepted; a
rejected byte hands control to the fast-forward loop. -/
def probe_loop (g : Grammar) (len : Nat) (events : List TokenIterItem)
    (current_token_id : Option Nat) (e : EngineState) : Option EngineState :=
  match events with
  | [] => some (revert_change e len)
  | TokenIterItem.token_byte byte :: rest =>
      match accept_byte g e len byte with
      | none => none
      | some (ByteStepResult.ok e') => probe_loop g len rest current_token_id e'
      | some (ByteStepResult.rejected e') => probe_skip_loop g len rest e'
  | TokenIterItem.new_token nid :: rest =>
      let e := revert_change e len
      let e := match current_token_id with
        | some token_id =>
            { e with allowed_token_ids := set_insert e.allowed_token_ids token_id }
        | none => e
      probe_loop g len rest nid e

/-- The inner fast-forward loop of `compute_allowed_token_ids` after a
rejected probe byte: skip the remaining bytes of the rejected token; at the
next boundary capture the next token id and resume the probe loop, at the
end of the iterator stop the whole walk (`break 'outer`, with no further
revert: the rejected `accept_byte` already reverted the chart). -/
def probe_skip_loop (g : Grammar) (len : Nat) (events : List TokenIterItem)
    (e : EngineState) : Option EngineState :=
  match events with
  | [] => some e
  | TokenIterItem.token_byte _ :: rest => probe_skip_loop g len rest e
  | TokenIterItem.new_token nid :: rest => probe_loop g len rest nid e

end

/-- The separator-token pass of `compute_allowed_token_ids`: run the whole
byte sequence of one separator-containing token atomically; on success
record its id and revert. -/
def probe_separator_token (g : Grammar) (len : Nat) (e : EngineState)
    (p : Nat × List Nat) : Option EngineState := do
  match ← feed_bytes g e len p.2 with
  | ByteStepResult.rejected e' => some e'
  | ByteStepResult.ok e' =>
      some (revert_change
        { e' with allowed_token_ids := set_insert e'.allowed_token_ids p.1 } len)

/-- The function `compute_allowed_token_ids`: rebuild the allowed-token
bitset by probing every vocabulary token whose first byte passes the
first-byte prefilter, then every separator-containing token, reverting the
chart after each probe and committing at the end. -/
def compute_allowed_token_ids (g : Grammar) (v : Vocabulary) (e : EngineState) :
    Option EngineState := do
  let e := { e with allowed_token_ids := [] }
  if e.finished then
    some e
  else
    let len := e.earley_sets.length
    let e := update_allowed_first_bytes g e
    let e ← (byte_set_ones e.allowed_first_bytes).foldlM (fun e byte =>
      probe_loop g len (get_normal_tokens_from_first_byte v byte) none e) e
    let e ← v.separator_tokens.foldlM (probe_separator_token g len) e
    some (commit_change e)

/-- A logit: either a float value (abstracted to a rational) or the
negative infinity `mask_logits` writes. -/
inductive Logit : Type where
  | val : ℚ → Logit
  | neg_infinity : Logit
deriving DecidableEq, Repr

/-- The `MaskLogitsError` enum of `engine_like.rs`. -/
inductive MaskLogitsError : Type where
  | InvalidLogitsLength : MaskLogitsError
deriving DecidableEq, Repr

/-- The `UpdateLogitsError` enum of `engine_like.rs`. -/
inductive UpdateLogitsError : Type where
  | Finished : UpdateLogitsError
  | UnknownTokenID : UpdateLogitsError
  | Rejected : UpdateLogitsError
  | InvalidLogitsLength : UpdateLogitsError
deriving DecidableEq, Repr

/-- The function `mask_logits`: write negative infinity over every
position whose token id is not in the allowed bitset; fail if the slice
length is not the vocabulary size. -/
def mask_logits (v : Vocabulary) (e : EngineState) (logits : List Logit) :
    Except MaskLogitsError (List Logit) :=
  if logits.length ≠ v.vocab_size then
    Except.error MaskLogitsError.InvalidLogitsLength
  else
    Except.ok (logits.enum.map (fun p =>
      if p.1 ∈ e.allowed_token_ids then p.2 else Logit.neg_infinity))

/-- The function `update_logits`: accept the token, recompute the allowed
bitset, mask the logits; note the source returns
`Ok(AcceptTokenResult::Ongoing)` on every success path. -/
def update_logits (g : Grammar) (v : Vocabulary) (e : EngineState)
    (token_id : Nat) (logits : List Logit) :
    Option (EngineState × List Logit × Except UpdateLogitsError AcceptTokenResult) := do
  let a ← try_accept_new_token g v e token_id
  match a.2 with
  | Except.error AcceptTokenError.Finished =>
      some (a.1, logits, Except.error UpdateLogitsError.Finished)
  | Except.error AcceptTokenError.UnknownTokenID =>
      some (a.1, logits, Except.error UpdateLogitsError.UnknownTokenID)
  | Except.error AcceptTokenError.Rejected =>
      some (a.1, logits, Except.error UpdateLogitsError.Rejected)
  | Except.ok _ =>
      let e' ← compute_allowed_token_ids g v a.1
      match mask_logits v e' logits with
      | Except.error MaskLogitsError.InvalidLogitsLength =>
          some (e', logits, Except.error UpdateLogitsError.InvalidLogitsLength)
      | Except.ok logits' =>
          some (e', logits', Except.ok AcceptTokenResult.Ongoing)

/-- The composition `update_logits` is specified to be (spec section 6:
"`update_logits(id, &mut [f32])` - composition of the two above"), written
from the spec's words for the refinement claim: the same sequence of calls,
but on success it reports the result `try_accept_new_token` returned. -/
def update_logits_spec (g : Grammar) (v : Vocabulary) (e : EngineState)
    (token_id : Nat) (logits : List Logit) :
    Option (EngineState × List Logit × Except UpdateLogitsError AcceptTokenResult) := do
  let a ← try_accept_new_token g v e token_id
  match a.2 with
  | Except.error AcceptTokenError.Finished =>
      some (a.1, logits, Except.error UpdateLogitsError.Finished)
  | Except.error AcceptTokenError.UnknownTokenID =>
      some (a.1, logits, Except.error UpdateLogitsError.UnknownTokenID)
  | Except.error AcceptTokenError.Rejected =>
      some (a.1, logits, Except.error UpdateLogitsError.Rejected)
  | Except.ok res =>
      let e' ← compute_allowed_token_ids g v a.1
      match mask_logits v e' logits with
      | Except.error MaskLogitsError.InvalidLogitsLength =>
          some (e', logits, Except.error UpdateLogitsError.InvalidLogitsLength)
      | Except.ok logits' =>
          some (e', logits', Except.ok res)

/-- The function `reset`: clear every mutable field, reseed set 0 with the
predictions of the start nonterminal, close it under Predict and rebuild
the postdot index (discarding the added-key tracking, as the source does by
passing a scratch set). -/
def reset (g : Grammar) (e : EngineState) : EngineState :=
  let p0 := predict_nonterminal g [] g.start_nonterminal_id 0
  let sets0 : List (List EarleyItem) := [p0.1]
  let p := predict g sets0 p0.2
  let u := update_postdot_items g p.1 [] []
  { e with
    allowed_first_bytes := []
    allowed_token_ids := []
    earley_sets := p.1
    to_be_completed_items := []
    to_be_completed_items_buffer := []
    deduplication_buffer := []
    postdot_items := u.1
    postdot_items_since_last_commit := []
    leo_items := []
    leo_items_buffer := []
    already_predicted_nonterminals := p.2
    finished := false }

/-- The function `EngineBase::new` without the width validations (which
concern only machine-integer sizes the `Nat` embedding does not bound):
build the empty state and `reset` it. -/
def engine_new (g : Grammar) (config : EngineConfig) : EngineState :=
  reset g
    { allowed_first_bytes := []
      allowed_token_ids := []
      earley_sets := []
      to_be_completed_items := []
      to_be_completed_items_buffer := []
      deduplication_buffer := []
      postdot_items := []
      postdot_items_since_last_commit := []
      leo_items := []
      leo_items_buffer := []
      already_predicted_nonterminals := []
      finished := false
      config := config }

/-- One observable call of the public recognizer interface that the
config-independence claim ranges over. -/
inductive EngineOp : Type where
  | accept_token : Nat → EngineOp
  | compute_allowed : EngineOp
deriving DecidableEq, Repr

/-- Run a sequence of `try_accept_new_token` and
`compute_allowed_token_ids` calls, collecting the results of the accept
calls. -/
def run_ops (g : Grammar) (v : Vocabulary) :
    EngineState → List EngineOp →
    Option (EngineState × List (Except AcceptTokenError AcceptTokenResult))
  | e, [] => some (e, [])
  | e, EngineOp.accept_token token_id :: rest => do
      let a ← try_accept_new_token g v e token_id
      let r ← run_ops g v a.1 rest
      some (r.1, a.2 :: r.2)
  | e, EngineOp.compute_allowed :: rest => do
      let e' ← compute_allowed_token_ids g v e
      run_ops g v e' rest

/-- Reachability invariant: every postdot-index key was recorded in an
existing chart column. -/
def HColumns (e : EngineState) : Prop :=
  ∀ p ∈ e.postdot_items, p.1.column < e.earley_sets.length

/-- Reachability invariant: every `LeoEligible` postdot entry satisfies the
Leo completeness condition (`update_postdot_items` demotes the others
before the entry can be observed). -/
def HLeo (g : Grammar) (e : EngineState) : Prop :=
  ∀ p ∈ e.postdot_items, ∀ it, p.2 = PostDotItems.LeoEligible it →
    item_should_be_completed g it.nonterminal_id (it.dot_position + 1)
      it.production_index = true

/-- Reachability invariant at public-call boundaries: the since-last-commit
tracking and the scratch completion buffers are empty (every public
operation ends in a commit or a revert, both of which clear them), and the
postdot index satisfies the structural invariants. -/
def BoundaryInv (g : Grammar) (e : EngineState) : Prop :=
  e.postdot_items_since_last_commit = [] ∧ e.to_be_completed_items = [] ∧
    e.deduplication_buffer = [] ∧ HColumns e ∧ HLeo g e

/-- Relation between the pre-probe state and a state observed after probe
bytes were speculatively fed on top of it: the chart and postdot index have
only grown, every new postdot key is tracked in the since-last-commit set,
lives in a column the base state did not have, and is fresh with respect to
the base index; the completion scratch buffers are empty; and the grown
state still satisfies the structural postdot invariants. -/
structure ProbeInv (g : Grammar) (e0 e : EngineState) : Prop where
  sets_ext : ∃ extra, e.earley_sets = e0.earley_sets ++ extra
  pd_ext : ∃ newpart, e.postdot_items = e0.postdot_items ++ newpart ∧
    ∀ p ∈ newpart, p.1 ∈ e.postdot_items_since_last_commit ∧
      e0.earley_sets.length ≤ p.1.column
  commit_fresh : ∀ k ∈ e.postdot_items_since_last_commit,
    ∀ p ∈ e0.postdot_items, p.1 ≠ k
  tbc_empty : e.to_be_completed_items = []
  dedup_empty : e.deduplication_buffer = []
  hcol : HColumns e
  hleo : HLeo g e

/-- Invariant of the postdot-recording fold relative to a base index `p0`
whose keys live below column `len0`: the map under construction is the
base plus fresh entries whose keys are tracked in the added set and live
in columns between `len0` and the chart length `slen`, and every tracked
key is fresh for the base. -/
def RecordInv (p0 : List (Dotted × PostDotItems)) (len0 slen : Nat)
    (st : List (Dotted × PostDotItems) × List Dotted) : Prop :=
  ∃ np, st.1 = p0 ++ np ∧
    (∀ p ∈ np, p.1 ∈ st.2 ∧ len0 ≤ p.1.column ∧ p.1.column < slen) ∧
    (∀ k ∈ st.2, ∀ p ∈ p0, p.1 ≠ k)

/-- The pre-probe core of the state is fully restored: chart content,
postdot index, finished flag, and the emptied tracking and scratch
buffers. -/
def CoreRestored (e0 e : EngineState) : Prop :=
  e.earley_sets = e0.earley_sets ∧ e.postdot_items = e0.postdot_items ∧
    e.postdot_items_since_last_commit = [] ∧ e.finished = false ∧
    e.to_be_completed_items = [] ∧ e.deduplication_buffer = []

deriving instance DecidableEq for Except

/-- The default engine configuration (both optional features on). -/
def default_config : EngineConfig := ⟨true, true⟩

/-- Example grammar `start ::= 'ab';`. -/
def example_grammar_ab : Grammar :=
  { rules := [[[HIRNode.Terminal 0]]]
    id_to_terminals := [[97, 98]]
    id_to_regexes := []
    id_to_excepteds := []
    start_nonterminal_id := 0
    first_bytes_from_regex := []
    first_bytes_from_excepted := [] }

/-- Example vocabulary with the single-byte tokens `a` (id 0) and `b`
(id 1). -/
def example_vocabulary_ab : Vocabulary := ⟨[(0, [97]), (1, [98])], [], 2⟩

/-- Example grammar `start ::= 'a';`. -/
def example_grammar_a : Grammar :=
  { rules := [[[HIRNode.Terminal 0]]]
    id_to_terminals := [[97]]
    id_to_regexes := []
    id_to_excepteds := []
    start_nonterminal_id := 0
    first_bytes_from_regex := []
    first_bytes_from_excepted := [] }

/-- Example vocabulary with the single token `a` (id 0). -/
def example_vocabulary_a : Vocabulary := ⟨[(0, [97])], [], 1⟩

/-- Example vocabulary with the single token `aa` (id 0). -/
def example_vocabulary_aa : Vocabulary := ⟨[(0, [97, 97])], [], 1⟩

/-- Example anchored DFA for the regex `a+`: state 10 is the start, state
11 accepts and loops on `a`, state 0 is the dead state. -/
def example_dfa_aplus : Dfa :=
  { stride2 := 0
    start := 10
    next := fun s b => if s = 10 ∧ b = 97 then 11
      else if s = 11 ∧ b = 97 then 11 else 0
    status := fun s => if s = 11 then DfaStatus.accept
      else if s = 10 then DfaStatus.in_progress else DfaStatus.reject }

/-- Example anchored DFA whose single live state 20 accepts and loops on
`a` (the language `a*` recognized with a self-looping accepting start
state). -/
def example_dfa_aloop : Dfa :=
  { stride2 := 0
    start := 20
    next := fun s b => if s = 20 ∧ b = 97 then 20 else 0
    status := fun s => if s = 20 then DfaStatus.accept else DfaStatus.reject }

/-- Example grammar `start ::= r0 r1;` with the two regex automata above:
scanning `a` twice drives an advanced-dot continuation and a same-node
continuation onto the same item. -/
def example_grammar_dup : Grammar :=
  { rules := [[[HIRNode.RegexString 0, HIRNode.RegexString 1]]]
    id_to_terminals := []
    id_to_regexes := [example_dfa_aplus, example_dfa_aloop]
    id_to_excepteds := []
    start_nonterminal_id := 0
    first_bytes_from_regex := [[97], [97]]
    first_bytes_from_excepted := [] }

/-- Example vocabulary with the two-byte token `aa` (id 0). -/
def example_vocabulary_dup : Vocabulary := ⟨[(0, [97, 97])], [], 1⟩

/-- Example unanchored DFA for an except! body that never reaches a dead
state: every transition stays in the in-progress state 30 except that byte
10 reaches the accepting state 31. -/
def example_dfa_except : Dfa :=
  { stride2 := 0
    start := 30
    next := fun _ b => if b = 10 then 31 else 30
    status := fun s => if s = 31 then DfaStatus.accept else DfaStatus.in_progress }

/-- Example grammar `start ::= except!(e0, 3) 'a';` over the except
automaton above. -/
def example_grammar_except : Grammar :=
  { rules := [[[HIRNode.EXCEPT 0 3, HIRNode.Terminal 0]]]
    id_to_terminals := [[97]]
    id_to_regexes := []
    id_to_excepteds := [example_dfa_except]
    start_nonterminal_id := 0
    first_bytes_from_regex := []
    first_bytes_from_excepted := [[97]] }

/-! Theorems. -/

/-- C1 (code-bug evaluation): with grammar `start ::= 'ab';` and the
single-byte tokens `a` (id 0) and `b` (id 1), accepting token `a` leaves a
reachable, unfinished recognizer on which `compute_allowed_token_ids`
produces an empty allowed-token bitset although `try_accept_new_token 1`
on that same state returns `Ok(Finished)`.  The claimed iff between the
allowed set and token acceptance therefore fails on the code:
`update_allowed_first_bytes` inserts the first byte `terminal[0]` of a
partially matched terminal instead of the byte `terminal[index]` the item
actually awaits, so the pending byte `b` never passes the first-byte
prefilter. -/
theorem claim_C1_allowed_iff_fails_on_partial_terminal :
    (try_accept_new_token example_grammar_ab example_vocabulary_ab
        (engine_new example_grammar_ab default_config) 0).map
      (fun p => (p.2, p.1.finished,
        (compute_allowed_token_ids example_grammar_ab example_vocabulary_ab
            p.1).map EngineState.allowed_token_ids,
        (try_accept_new_token example_grammar_ab example_vocabulary_ab
            p.1 1).map Prod.snd)) =
      some (Except.ok AcceptTokenResult.Ongoing, false, some [],
        some (Except.ok AcceptTokenResult.Finished)) := by
  decide

/-- C2 (counterexample): with grammar `start ::= 'a';` and the single
token `a` (id 0), `try_accept_new_token 0` on the fresh recognizer returns
`Ok(Finished)` while `update_logits 0` on the same state returns
`Ok(Ongoing)`: the source discards the accept result and answers
`AcceptTokenResult::Ongoing` on every success path, so the claim that
`update_logits` returns the same result as `try_accept_new_token` is
false. -/
theorem claim_C2_counterexample_result_dropped :
    (update_logits example_grammar_a example_vocabulary_a
        (engine_new example_grammar_a default_config) 0 [Logit.val 0]).map
      (fun p => p.2.2) = some (Except.ok AcceptTokenResult.Ongoing) ∧
    (try_accept_new_token example_grammar_a example_vocabulary_a
        (engine_new example_grammar_a default_config) 0).map Prod.snd =
      some (Except.ok AcceptTokenResult.Finished) := by
  constructor
  · decide
  · decide

/-- C4 (counterexample): on the freshly reset recognizer for
`start ::= 'ab';` (a reachable state whose allowed-first-bytes set is
empty), `compute_allowed_token_ids` leaves the allowed-first-bytes set
equal to `{'a'}`: rebuilding that set is a lasting effect beyond the two
the claim enumerates (the allowed-token bitset and the cleared
since-last-commit buffers), so the claim as stated is false. -/
theorem claim_C4_counterexample_first_bytes_effect :
    (engine_new example_grammar_ab default_config).allowed_first_bytes = [] ∧
    (compute_allowed_token_ids example_grammar_ab example_vocabulary_ab
        (engine_new example_grammar_ab default_config)).map
      EngineState.allowed_first_bytes = some [97] := by
  refine ⟨by decide, by decide⟩

/-- C8 (counterexample): in the grammar `start ::= r0 r1;` with `r0` an
`a+` automaton and `r1` a self-looping accepting automaton, accepting the
two-byte token `aa` from the fresh recognizer succeeds (returning
`Finished`), yet the third Earley set of the resulting chart contains the
item `(0, 1, 0, 0, 20)` twice: Scan pushed both the advanced-dot
continuation of the `r0` item and the same-node continuation of the `r1`
item directly into the set, so the deduplication invariant fails after a
completed byte step. -/
theorem claim_C8_counterexample_scan_pushes_duplicate :
    (try_accept_new_token example_grammar_dup example_vocabulary_dup
        (engine_new example_grammar_dup default_config) 0).map
      (fun p => (p.2, p.1.earley_sets.getD 2 [])) =
      some (Except.ok AcceptTokenResult.Finished,
        [⟨0, 1, 0, 0, 20⟩, ⟨0, 1, 0, 0, 20⟩, ⟨0, 0, 0, 0, 11⟩]) ∧
    ¬ ([(⟨0, 1, 0, 0, 20⟩ : EarleyItem), ⟨0, 1, 0, 0, 20⟩,
        ⟨0, 0, 0, 0, 11⟩].Nodup) := by
  refine ⟨by decide, by decide⟩

/-- C2 (amended): `update_logits` is the composition of
`try_accept_new_token`, `compute_allowed_token_ids` and `mask_logits` with
identical state and logits effects and identical error propagation, except
that on success it always returns `Ongoing` instead of the result
`try_accept_new_token` returned. -/
theorem claim_C2_amended_composition_up_to_result
    (g : Grammar) (v : Vocabulary) (e : EngineState) (token_id : Nat)
    (logits : List Logit) :
    update_logits g v e token_id logits =
      (update_logits_spec g v e token_id logits).map
        (fun p => (p.1, p.2.1, p.2.2.map (fun _ => AcceptTokenResult.Ongoing))) := by
  simp only [update_logits, update_logits_spec, Option.bind_eq_bind]
  cases h : try_accept_new_token g v e token_id with
  | none => rfl
  | some a =>
      obtain ⟨e1, r⟩ := a
      cases r with
      | error err => cases err <;> simp [Except.map]
      | ok res =>
          simp only [Option.some_bind]
          cases h2 : compute_allowed_token_ids g v e1 with
          | none => rfl
          | some e2 =>
              simp only [Option.some_bind]
              cases h3 : mask_logits v e2 logits with
              | error err => cases err <;> simp [Except.map]
              | ok lg => simp [Except.map]

/-- Result of scanning a one-item Earley set: helper equation reducing
`scan` on a last set `[item]` to the single `scan_item` step. -/
theorem scan_singleton (g : Grammar) (prev : List (List EarleyItem))
    (tbc : List ToBeCompletedItem) (item : EarleyItem) (byte : Nat) :
    scan g (prev ++ [[item]]) tbc byte =
      (scan_item g byte ([], tbc) item).map
        (fun a => (prev ++ [[item]] ++ [a.1], a.2)) := by
  simp only [scan, List.getLastD_concat, List.foldlM, Option.bind_eq_bind]
  cases h : scan_item g byte ([], tbc) item with
  | none => rfl
  | some a => simp [List.append_assoc]

/-- C5: Scan's dispatch for an item whose next node is a regex, on the
core engine (`engine_base.rs`): feeding a byte transitions the DFA; on an
accepting new state Scan adds both the advanced-dot continuation (via
`advance_item`) and the same-node continuation carrying the new DFA state;
on an in-progress state only the same-node continuation; on a rejecting
state the item is dropped. -/
theorem claim_C5_scan_regex_dual_continuation
    (g : Grammar) (prev : List (List EarleyItem)) (tbc : List ToBeCompletedItem)
    (item : EarleyItem) (byte rid : Nat) (dfa : Dfa) (ns : Nat)
    (adv : List ToBeCompletedItem × List EarleyItem)
    (hnode : get_node g item.nonterminal_id item.dot_position
      item.production_index = HIRNode.RegexString rid)
    (hdfa : dfa = get_regex g rid)
    (hns : ns = dfa.next (from_state_id_to_dfa_state_id item.state_id dfa.stride2)
      byte)
    (hadv : adv = advance_item g (fun it s => s ++ [it]) item tbc []) :
    (dfa.status ns = DfaStatus.accept →
      scan g (prev ++ [[item]]) tbc byte =
        some (prev ++ [[item]] ++ [adv.2 ++ [{ item with
          state_id := from_dfa_state_id_to_state_id ns dfa.stride2 }]], adv.1)) ∧
    (dfa.status ns = DfaStatus.in_progress →
      scan g (prev ++ [[item]]) tbc byte =
        some (prev ++ [[item]] ++ [[{ item with
          state_id := from_dfa_state_id_to_state_id ns dfa.stride2 }]], tbc)) ∧
    (dfa.status ns = DfaStatus.reject →
      scan g (prev ++ [[item]]) tbc byte = some (prev ++ [[item]] ++ [[]], tbc)) := by
  subst hdfa hns hadv
  refine ⟨fun hst => ?_, fun hst => ?_, fun hst => ?_⟩ <;>
    simp [scan_singleton, scan_item, hnode, hst]

/-- C5 (witness). -/
theorem claim_C5_witness :
    (example_dfa_aplus.status 11 = DfaStatus.accept →
      scan example_grammar_dup [[⟨0, 0, 0, 0, 10⟩]] [] 97 =
        some ([[(⟨0, 0, 0, 0, 10⟩ : EarleyItem)]] ++
          [(advance_item example_grammar_dup (fun it s => s ++ [it])
              ⟨0, 0, 0, 0, 10⟩ [] []).2 ++
            [{ (⟨0, 0, 0, 0, 10⟩ : EarleyItem) with
              state_id := from_dfa_state_id_to_state_id 11
                example_dfa_aplus.stride2 }]],
          (advance_item example_grammar_dup (fun it s => s ++ [it])
            ⟨0, 0, 0, 0, 10⟩ [] []).1)) ∧
    (example_dfa_aplus.status 11 = DfaStatus.in_progress →
      scan example_grammar_dup [[⟨0, 0, 0, 0, 10⟩]] [] 97 =
        some ([[(⟨0, 0, 0, 0, 10⟩ : EarleyItem)]] ++
          [[{ (⟨0, 0, 0, 0, 10⟩ : EarleyItem) with
            state_id := from_dfa_state_id_to_state_id 11
              example_dfa_aplus.stride2 }]], [])) ∧
    (example_dfa_aplus.status 11 = DfaStatus.reject →
      scan example_grammar_dup [[⟨0, 0, 0, 0, 10⟩]] [] 97 =
        some ([[(⟨0, 0, 0, 0, 10⟩ : EarleyItem)]] ++ [[]], [])) := by
  have h := claim_C5_scan_regex_dual_continuation example_grammar_dup []
    [] ⟨0, 0, 0, 0, 10⟩ 97 0 example_dfa_aplus 11
    (advance_item example_grammar_dup (fun it s => s ++ [it]) ⟨0, 0, 0, 0, 10⟩ [] [])
    (by decide) rfl (by decide) rfl
  simpa using h

/-- C5 (code-bug evaluation of the other code path): the Scan of the
legacy core variant (`src/kbnf/src/engine.rs`) fetches the regex automaton
but produces no continuation at all for an item whose next node is a
regex, even though the DFA transition on the fed byte lands on an
accepting state: the dual continuation the claim (and the spec's
authoritative form) requires is absent. -/
theorem claim_C5_variant_drops_regex_items :
    example_dfa_aplus.status (example_dfa_aplus.next 10 97) = DfaStatus.accept ∧
    variant_scan example_grammar_dup [[⟨0, 0, 0, 0, 10⟩]] [] 97 =
      ([[⟨0, 0, 0, 0, 10⟩]], []) := by
  refine ⟨by decide, by decide⟩

/-- C6: Scan's dispatch for an item whose next node is `Except(e, reps)`,
stated on the unpacked sub-state word (DFA state and remaining
repetitions): an accepting transition drops the item; on an in-progress
transition, if the unpacked repetition count is the `INVALID_REPETITION`
sentinel both the advanced-dot and the in-place continuations are
produced; otherwise the count is decremented and, when the decrement
reaches the sentinel, only the advanced-dot continuation is produced, else
both are (the in-place one carrying the new DFA state packed with the
decremented count). -/
theorem claim_C6_scan_except_repetition_rule
    (g : Grammar) (prev : List (List EarleyItem)) (tbc : List ToBeCompletedItem)
    (item : EarleyItem) (byte eid r0 : Nat) (dfa : Dfa) (s r ns : Nat)
    (adv : List ToBeCompletedItem × List EarleyItem)
    (hnode : get_node g item.nonterminal_id item.dot_position
      item.production_index = HIRNode.EXCEPT eid r0)
    (hdfa : dfa = get_excepted g eid)
    (hsr : (s, r) = from_state_id_to_dfa_state_id_with_r item.state_id dfa.stride2)
    (hns : ns = dfa.next s byte)
    (hadv : adv = advance_item g (fun it s => s ++ [it]) item tbc []) :
    (dfa.status ns = DfaStatus.accept →
      scan g (prev ++ [[item]]) tbc byte = some (prev ++ [[item]] ++ [[]], tbc)) ∧
    (dfa.status ns = DfaStatus.in_progress → r = INVALID_REPETITION →
      scan g (prev ++ [[item]]) tbc byte =
        some (prev ++ [[item]] ++ [adv.2 ++ [{ item with
          state_id := from_dfa_state_id_to_state_id ns dfa.stride2 }]], adv.1)) ∧
    (dfa.status ns = DfaStatus.in_progress → r ≠ INVALID_REPETITION →
      r - 1 = INVALID_REPETITION →
      scan g (prev ++ [[item]]) tbc byte =
        some (prev ++ [[item]] ++ [adv.2], adv.1)) ∧
    (dfa.status ns = DfaStatus.in_progress → r ≠ INVALID_REPETITION →
      r - 1 ≠ INVALID_REPETITION →
      scan g (prev ++ [[item]]) tbc byte =
        some (prev ++ [[item]] ++ [adv.2 ++ [{ item with
          state_id := from_dfa_state_id_to_state_id_with_r ns dfa.stride2
            (r - 1) }]], adv.1)) := by
  subst hdfa hns hadv
  refine ⟨fun hst => ?_, fun hst hr => ?_, fun hst hr hr1 => ?_,
    fun hst hr hr1 => ?_⟩
  · simp [scan_singleton, scan_item, hnode, ← hsr, hst]
  · simp [scan_singleton, scan_item, hnode, ← hsr, hst, hr]
  · simp [scan_singleton, scan_item, hnode, ← hsr, hst, hr, hr1]
  · simp [scan_singleton, scan_item, hnode, ← hsr, hst, hr, hr1]

/-- C6 (witness). -/
theorem claim_C6_witness :
    (example_dfa_except.status 30 = DfaStatus.accept →
      scan example_grammar_except
          [[⟨0, 0, 0, 0, 30 + 3 * 2 ^ 24⟩]] [] 97 =
        some ([[(⟨0, 0, 0, 0, 30 + 3 * 2 ^ 24⟩ : EarleyItem)]] ++ [[]], [])) ∧
    (example_dfa_except.status 30 = DfaStatus.in_progress →
      (3 : Nat) = INVALID_REPETITION →
      scan example_grammar_except
          [[⟨0, 0, 0, 0, 30 + 3 * 2 ^ 24⟩]] [] 97 =
        some ([[(⟨0, 0, 0, 0, 30 + 3 * 2 ^ 24⟩ : EarleyItem)]] ++
          [(advance_item example_grammar_except (fun it s => s ++ [it])
              ⟨0, 0, 0, 0, 30 + 3 * 2 ^ 24⟩ [] []).2 ++
            [{ (⟨0, 0, 0, 0, 30 + 3 * 2 ^ 24⟩ : EarleyItem) with
              state_id := from_dfa_state_id_to_state_id 30
                example_dfa_except.stride2 }]],
          (advance_item example_grammar_except (fun it s => s ++ [it])
            ⟨0, 0, 0, 0, 30 + 3 * 2 ^ 24⟩ [] []).1)) ∧
    (example_dfa_except.status 30 = DfaStatus.in_progress →
      (3 : Nat) ≠ INVALID_REPETITION → (3 : Nat) - 1 = INVALID_REPETITION →
      scan example_grammar_except
          [[⟨0, 0, 0, 0, 30 + 3 * 2 ^ 24⟩]] [] 97 =
        some ([[(⟨0, 0, 0, 0, 30 + 3 * 2 ^ 24⟩ : EarleyItem)]] ++
          [(advance_item example_grammar_except (fun it s => s ++ [it])
              ⟨0, 0, 0, 0, 30 + 3 * 2 ^ 24⟩ [] []).2],
          (advance_item example_grammar_except (fun it s => s ++ [it])
            ⟨0, 0, 0, 0, 30 + 3 * 2 ^ 24⟩ [] []).1)) ∧
    (example_dfa_except.status 30 = DfaStatus.in_progress →
      (3 : Nat) ≠ INVALID_REPETITION → (3 : Nat) - 1 ≠ INVALID_REPETITION →
      scan example_grammar_except
          [[⟨0, 0, 0, 0, 30 + 3 * 2 ^ 24⟩]] [] 97 =
        some ([[(⟨0, 0, 0, 0, 30 + 3 * 2 ^ 24⟩ : EarleyItem)]] ++
          [(advance_item example_grammar_except (fun it s => s ++ [it])
              ⟨0, 0, 0, 0, 30 + 3 * 2 ^ 24⟩ [] []).2 ++
            [{ (⟨0, 0, 0, 0, 30 + 3 * 2 ^ 24⟩ : EarleyItem) with
              state_id := from_dfa_state_id_to_state_id_with_r 30
                example_dfa_except.stride2 (3 - 1) }]],
          (advance_item example_grammar_except (fun it s => s ++ [it])
            ⟨0, 0, 0, 0, 30 + 3 * 2 ^ 24⟩ [] []).1)) := by
  have h := claim_C6_scan_except_repetition_rule example_grammar_except []
    [] ⟨0, 0, 0, 0, 30 + 3 * 2 ^ 24⟩ 97 0 3 example_dfa_except 30 3 30
    (advance_item example_grammar_except (fun it s => s ++ [it])
      ⟨0, 0, 0, 0, 30 + 3 * 2 ^ 24⟩ [] [])
    (by decide) rfl (by decide) (by decide) rfl
  simpa using h

/-- A single Scan step never aborts when the DFAs of the except nodes it
touches have no transition into a rejecting state. -/
theorem scan_item_ne_none (g : Grammar) (byte : Nat)
    (acc : List EarleyItem × List ToBeCompletedItem) (item : EarleyItem)
    (h : ∀ eid r0, get_node g item.nonterminal_id item.dot_position
        item.production_index = HIRNode.EXCEPT eid r0 →
      ∀ s b, (get_excepted g eid).status ((get_excepted g eid).next s b) ≠
        DfaStatus.reject) :
    scan_item g byte acc item ≠ none := by
  unfold scan_item
  cases hnode : get_node g item.nonterminal_id item.dot_position
    item.production_index with
  | Terminal tid =>
      dsimp only
      split <;> [skip; simp] <;> split <;> simp
  | RegexString rid =>
      dsimp only
      split <;> simp
  | EXCEPT eid r0 =>
      dsimp only
      split
      · simp
      · exact absurd (by assumption) (h eid r0 hnode _ byte)
      · split <;> [simp; split <;> simp]
  | Nonterminal n => simp

/-- The Scan fold never aborts when every item of the row is abort-free. -/
theorem foldlM_scan_ne_none (g : Grammar) (byte : Nat)
    (row : List EarleyItem) :
    ∀ acc : List EarleyItem × List ToBeCompletedItem,
    (∀ item ∈ row, ∀ a, scan_item g byte a item ≠ none) →
    row.foldlM (scan_item g byte) acc ≠ none := by
  induction row with
  | nil => intro acc _; simp [List.foldlM]
  | cons it rest ih =>
      intro acc h
      simp only [List.foldlM]
      cases hi : scan_item g byte acc it with
      | none => exact absurd hi (h it (by simp) acc)
      | some acc' =>
          simp only [Option.bind_eq_bind, Option.some_bind]
          exact ih acc' (fun item hm a => h item (by simp [hm]) a)

/-- C7: the `unreachable!` abort of the `Except` reject branch never
executes: for every chart and fed byte, as long as the except DFAs
referenced by the items of the newest Earley set never transition into a
reject-classified state (the guarantee the spec places on the externally
built unanchored DFAs), `scan` returns a result rather than aborting. -/
theorem claim_C7_except_reject_unreachable
    (g : Grammar) (earley_sets : List (List EarleyItem))
    (to_be_completed_items : List ToBeCompletedItem) (byte : Nat)
    (hwf : ∀ item ∈ earley_sets.getLastD [], ∀ eid r0,
      get_node g item.nonterminal_id item.dot_position item.production_index =
        HIRNode.EXCEPT eid r0 →
      ∀ s b, (get_excepted g eid).status ((get_excepted g eid).next s b) ≠
        DfaStatus.reject) :
    scan g earley_sets to_be_completed_items byte ≠ none := by
  simp only [scan, Option.bind_eq_bind]
  cases hf : (earley_sets.getLastD []).foldlM (scan_item g byte)
    ([], to_be_completed_items) with
  | none =>
      exact absurd hf (foldlM_scan_ne_none g byte _ _
        (fun item hm a => scan_item_ne_none g byte a item (hwf item hm)))
  | some r => simp

/-- C7 (witness). -/
theorem claim_C7_witness :
    scan example_grammar_except [[⟨0, 0, 0, 0, 30 + 3 * 2 ^ 24⟩]] [] 98 ≠ none := by
  refine claim_C7_except_reject_unreachable example_grammar_except
    [[⟨0, 0, 0, 0, 30 + 3 * 2 ^ 24⟩]] [] 98 ?_
  intro item hm eid r0 hnode s b
  have hm' : item = ⟨0, 0, 0, 0, 30 + 3 * 2 ^ 24⟩ := List.mem_singleton.mp hm
  subst hm'
  have h0 : HIRNode.EXCEPT 0 3 = HIRNode.EXCEPT eid r0 := hnode
  cases h0
  show (if (if b = 10 then 31 else 30) = 31 then DfaStatus.accept
    else DfaStatus.in_progress) ≠ DfaStatus.reject
  split <;> simp

/-- No operation of `accept_byte` reads the config: overriding the config
field commutes with the step. -/
theorem accept_byte_config (g : Grammar) (e : EngineState) (c : EngineConfig)
    (len byte : Nat) :
    accept_byte g { e with config := c } len byte =
      (accept_byte g e len byte).map (fun r => match r with
        | ByteStepResult.ok e' => ByteStepResult.ok { e' with config := c }
        | ByteStepResult.rejected e' =>
            ByteStepResult.rejected { e' with config := c }) := by
  obtain ⟨a1, a2, a3, a4, a5, a6, a7, a8, a9, a10, a11, a12, a13⟩ := e
  simp only [accept_byte]
  cases a12 with
  | true => rfl
  | false =>
      simp only [Bool.false_eq_true, if_false, Option.bind_eq_bind]
      cases h : scan g a3 a4 byte with
      | none => rfl
      | some s =>
          simp only [Option.some_bind]
          by_cases hr : is_rejected s.1 s.2 <;> simp only [hr] <;>
            simp only [Bool.false_eq_true, if_true, if_false] <;> rfl

/-- Config-override commutes with the byte loop of
`try_accept_new_token`. -/
theorem feed_bytes_config (g : Grammar) (c : EngineConfig) (len : Nat) :
    ∀ (bytes : List Nat) (e : EngineState),
    feed_bytes g { e with config := c } len bytes =
      (feed_bytes g e len bytes).map (fun r => match r with
        | ByteStepResult.ok e' => ByteStepResult.ok { e' with config := c }
        | ByteStepResult.rejected e' =>
            ByteStepResult.rejected { e' with config := c }) := by
  intro bytes
  induction bytes with
  | nil => intro e; rfl
  | cons b rest ih =>
      intro e
      simp only [feed_bytes, accept_byte_config, Option.bind_eq_bind]
      cases h : accept_byte g e len b with
      | none => rfl
      | some r => cases r <;> simp [ih]

/-- Config-override commutes with `update_allowed_first_bytes`. -/
theorem update_allowed_first_bytes_config (g : Grammar) (e : EngineState)
    (c : EngineConfig) :
    update_allowed_first_bytes g { e with config := c } =
      { update_allowed_first_bytes g e with config := c } := rfl

/-- Config-override commutes with `try_accept_new_token`. -/
theorem try_accept_new_token_config (g : Grammar) (v : Vocabulary)
    (e : EngineState) (c : EngineConfig) (token_id : Nat) :
    try_accept_new_token g v { e with config := c } token_id =
      (try_accept_new_token g v e token_id).map
        (fun p => ({ p.1 with config := c }, p.2)) := by
  simp only [try_accept_new_token]
  by_cases hf : e.finished = true
  · rw [if_pos (show ({ e with config := c } : EngineState).finished = true from hf),
      if_pos hf]
    rfl
  · rw [if_neg (show ¬ ({ e with config := c } : EngineState).finished = true
      from hf), if_neg hf]
    cases get_token_from_token_id v token_id with
    | none => rfl
    | some token =>
        simp only [Option.bind_eq_bind, feed_bytes_config]
        cases h : feed_bytes g e e.earley_sets.length token with
        | none => rfl
        | some r =>
            cases r with
            | rejected e' => rfl
            | ok e' => by_cases hf2 : e'.finished = true <;> simp [hf2, commit_change]

/-- Config-override commutes with the probe loop and the fast-forward
loop. -/
theorem probe_loop_config (g : Grammar) (c : EngineConfig) (len : Nat) :
    ∀ (events : List TokenIterItem),
    (∀ (cur : Option Nat) (e : EngineState),
      probe_loop g len events cur { e with config := c } =
        (probe_loop g len events cur e).map (fun x => { x with config := c })) ∧
    (∀ e : EngineState,
      probe_skip_loop g len events { e with config := c } =
        (probe_skip_loop g len events e).map (fun x => { x with config := c })) := by
  intro events
  induction events with
  | nil => exact ⟨fun cur e => rfl, fun e => rfl⟩
  | cons ev rest ih =>
      refine ⟨fun cur e => ?_, fun e => ?_⟩
      · cases ev with
        | token_byte b =>
            simp only [probe_loop, accept_byte_config]
            cases h : accept_byte g e len b with
            | none => rfl
            | some r =>
                cases r with
                | ok e' => simpa using ih.1 cur e'
                | rejected e' => simpa using ih.2 e'
        | new_token nid =>
            simp only [probe_loop]
            cases cur with
            | none => exact ih.1 nid (revert_change e len)
            | some tid =>
                exact ih.1 nid { revert_change e len with
                  allowed_token_ids :=
                    set_insert (revert_change e len).allowed_token_ids tid }
      · cases ev with
        | token_byte b => exact ih.2 e
        | new_token nid => exact ih.1 nid e

/-- Config-override commutes with one separator-token probe. -/
theorem probe_separator_token_config (g : Grammar) (c : EngineConfig)
    (len : Nat) (e : EngineState) (p : Nat × List Nat) :
    probe_separator_token g len { e with config := c } p =
      (probe_separator_token g len e p).map (fun x => { x with config := c }) := by
  simp only [probe_separator_token, feed_bytes_config, Option.bind_eq_bind]
  cases h : feed_bytes g e len p.2 with
  | none => rfl
  | some r => cases r <;> rfl

/-- Config-override commutes with `compute_allowed_token_ids`. -/
theorem compute_allowed_token_ids_config (g : Grammar) (v : Vocabulary)
    (e : EngineState) (c : EngineConfig) :
    compute_allowed_token_ids g v { e with config := c } =
      (compute_allowed_token_ids g v e).map (fun x => { x with config := c }) := by
  simp only [compute_allowed_token_ids]
  by_cases hf : e.finished = true
  · rw [if_pos (show ({ e with config := c, allowed_token_ids := ([] : List Nat) } : EngineState).finished = true from hf),
      if_pos (show ({ e with allowed_token_ids := ([] : List Nat) } : EngineState).finished = true from hf)]
    rfl
  · rw [if_neg (show ¬ ({ e with config := c, allowed_token_ids := ([] : List Nat) } : EngineState).finished = true from hf),
      if_neg (show ¬ ({ e with allowed_token_ids := ([] : List Nat) } : EngineState).finished = true from hf)]
    simp only [Option.bind_eq_bind]
    have hfold : ∀ (L : Nat) (bytes : List Nat) (e0 : EngineState),
        bytes.foldlM (fun e byte =>
          probe_loop g L (get_normal_tokens_from_first_byte v byte) none e)
          { e0 with config := c } =
        (bytes.foldlM (fun e byte =>
          probe_loop g L (get_normal_tokens_from_first_byte v byte) none e)
          e0).map (fun x => { x with config := c }) := by
      intro L bytes
      induction bytes with
      | nil => intro e0; rfl
      | cons b rest ih =>
          intro e0
          simp only [List.foldlM, Option.bind_eq_bind,
            (probe_loop_config g c L (get_normal_tokens_from_first_byte v b)).1]
          cases h : probe_loop g L (get_normal_tokens_from_first_byte v b)
            none e0 with
          | none => rfl
          | some x => simp [ih]
    have hsep : ∀ (L : Nat) (seps : List (Nat × List Nat)) (e0 : EngineState),
        seps.foldlM (probe_separator_token g L) { e0 with config := c } =
        (seps.foldlM (probe_separator_token g L) e0).map
          (fun x => { x with config := c }) := by
      intro L seps
      induction seps with
      | nil => intro e0; rfl
      | cons p rest ih =>
          intro e0
          simp only [List.foldlM, Option.bind_eq_bind,
            probe_separator_token_config]
          cases h : probe_separator_token g L e0 p with
          | none => rfl
          | some x => simp [ih]
    have hu : ({ e with config := c, allowed_token_ids := ([] : List Nat) }
        : EngineState) =
        { ({ e with allowed_token_ids := ([] : List Nat) } : EngineState) with
          config := c } := rfl
    rw [hu, update_allowed_first_bytes_config, hfold]
    dsimp only
    cases hx : (byte_set_ones (update_allowed_first_bytes g
        { e with allowed_token_ids := ([] : List Nat) }).allowed_first_bytes).foldlM
        (fun e1 byte => probe_loop g e.earley_sets.length
          (get_normal_tokens_from_first_byte v byte) none e1)
        (update_allowed_first_bytes g
          { e with allowed_token_ids := ([] : List Nat) }) with
    | none => rfl
    | some x =>
        simp only [Option.map_some', Option.some_bind, hsep]
        cases hy : v.separator_tokens.foldlM
          (probe_separator_token g e.earley_sets.length) x with
        | none => rfl
        | some y => rfl

/-- Config-override commutes with an arbitrary call sequence. -/
theorem run_ops_config (g : Grammar) (v : Vocabulary) (c : EngineConfig) :
    ∀ (ops : List EngineOp) (e : EngineState),
    run_ops g v { e with config := c } ops =
      (run_ops g v e ops).map (fun p => ({ p.1 with config := c }, p.2)) := by
  intro ops
  induction ops with
  | nil => intro e; rfl
  | cons op rest ih =>
      intro e
      cases op with
      | accept_token token_id =>
          simp only [run_ops, try_accept_new_token_config, Option.bind_eq_bind]
          cases h : try_accept_new_token g v e token_id with
          | none => rfl
          | some a =>
              simp only [Option.map_some', Option.some_bind, ih]
              cases h2 : run_ops g v a.1 rest with
              | none => rfl
              | some r => rfl
      | compute_allowed =>
          simp only [run_ops, compute_allowed_token_ids_config,
            Option.bind_eq_bind]
          cases h : compute_allowed_token_ids g v e with
          | none => rfl
          | some x => simp [ih]

/-- C9: two recognizers built over the same grammar and vocabulary that
differ only in the `cache_enabled` and `compaction_enabled` flags produce,
for every sequence of `try_accept_new_token` and
`compute_allowed_token_ids` calls, identical call results and identical
allowed-token bitsets (in this source the flags are stored but never
read). -/
theorem claim_C9_config_flags_are_observationally_irrelevant
    (g : Grammar) (v : Vocabulary) (c1 c2 : EngineConfig)
    (ops : List EngineOp) :
    run_ops g v (engine_new g c1) ops =
      (run_ops g v (engine_new g c2) ops).map
        (fun p => ({ p.1 with config := c1 }, p.2)) ∧
    (run_ops g v (engine_new g c1) ops).map (fun p => p.2) =
      (run_ops g v (engine_new g c2) ops).map (fun p => p.2) ∧
    (run_ops g v (engine_new g c1) ops).map (fun p => p.1.allowed_token_ids) =
      (run_ops g v (engine_new g c2) ops).map (fun p => p.1.allowed_token_ids) := by
  have h1 : engine_new g c1 = { engine_new g c2 with config := c1 } := rfl
  have h2 := run_ops_config g v c1 ops (engine_new g c2)
  refine ⟨h1 ▸ h2, ?_, ?_⟩ <;>
    rw [h1, h2] <;> cases run_ops g v (engine_new g c2) ops <;> simp

/-- Inserting into a duplicate-free list keeps it duplicate-free. -/
theorem set_insert_nodup {α : Type} [DecidableEq α] (s : List α) (a : α)
    (h : s.Nodup) : (set_insert s a).Nodup := by
  unfold set_insert
  split
  · exact h
  · next hmem => simpa [List.nodup_append] using ⟨h, hmem⟩

/-- The advance of one item keeps the staged-set accumulator
duplicate-free when staging goes through the deduplicating insert. -/
theorem advance_item_dedup_nodup (g : Grammar) (item : EarleyItem)
    (tbc : List ToBeCompletedItem) (acc : List EarleyItem) (h : acc.Nodup) :
    (advance_item g (fun it s => set_insert s it) item tbc acc).2.Nodup := by
  unfold advance_item
  dsimp only
  split
  · exact h
  · exact set_insert_nodup acc _ h

/-- Completing one pending pair keeps the deduplication buffer
duplicate-free. -/
theorem earley_complete_one_item_nodup (g : Grammar)
    (item : ToBeCompletedItem) (postdot_items : List (Dotted × PostDotItems))
    (acc : List ToBeCompletedItem × List EarleyItem × Bool)
    (h : acc.2.1.Nodup) :
    (earley_complete_one_item g item postdot_items acc).2.1.Nodup := by
  unfold earley_complete_one_item
  dsimp only
  split
  · next items heq =>
      have : ∀ (l : List EarleyItem) (its : List EarleyItem)
          (t : List ToBeCompletedItem), l.Nodup →
          (its.foldl (fun a it =>
            advance_item g (fun it s => set_insert s it) it a.1 a.2) (t, l)).2.Nodup := by
        intro l its
        induction its generalizing l with
        | nil => intro t hl; simpa using hl
        | cons it rest ih =>
            intro t hl
            simp only [List.foldl_cons]
            have h1 := advance_item_dedup_nodup g it t l hl
            have h2 : advance_item g (fun it s => set_insert s it) it t l =
              ((advance_item g (fun it s => set_insert s it) it t l).1,
               (advance_item g (fun it s => set_insert s it) it t l).2) := rfl
            rw [h2]
            exact ih _ _ h1
      exact this acc.2.1 items acc.1 h
  · exact h

/-- One completion round keeps the deduplication buffer duplicate-free. -/
theorem complete_round_nodup (g : Grammar)
    (postdot_items : List (Dotted × PostDotItems))
    (pending : List ToBeCompletedItem)
    (acc : List ToBeCompletedItem ×
      List (ToBeCompletedItem × ToBeCompletedItem) × List ToBeCompletedItem ×
      List EarleyItem × Bool) (h : acc.2.2.2.1.Nodup) :
    (complete_round g postdot_items pending acc).2.2.2.1.Nodup := by
  unfold complete_round
  induction pending generalizing acc with
  | nil => simpa using h
  | cons item rest ih =>
      simp only [List.foldl_cons]
      exact ih _ (earley_complete_one_item_nodup g _ postdot_items _ h)

/-- The completion fixed-point loop keeps the deduplication buffer
duplicate-free. -/
theorem complete_loop_nodup (g : Grammar)
    (postdot_items : List (Dotted × PostDotItems)) (fuel : Nat) :
    ∀ (tbc : List ToBeCompletedItem)
      (acc : List ToBeCompletedItem ×
        List (ToBeCompletedItem × ToBeCompletedItem) × List ToBeCompletedItem ×
        List EarleyItem × Bool), acc.2.2.2.1.Nodup →
    (complete_loop g postdot_items fuel tbc acc).2.2.1.Nodup := by
  induction fuel with
  | zero => intro tbc acc h; exact h
  | succ fuel ih =>
      intro tbc acc h
      simp only [complete_loop]
      split
      · exact h
      · exact ih _ _ (complete_round_nodup g postdot_items tbc _ h)

/-- C8 (amended): the batch of items Complete drains from its staging
buffer into the newest Earley set is always duplicate-free (the buffer is
a set), so the completion stage on its own never writes two identical
items; the original claim fails only for the items Scan appends
directly. -/
theorem claim_C8_amended_completion_drain_deduplicated (g : Grammar)
    (earley_sets : List (List EarleyItem)) (tbc : List ToBeCompletedItem)
    (leo_items : List (ToBeCompletedItem × ToBeCompletedItem))
    (leo_items_buffer : List ToBeCompletedItem)
    (postdot_items : List (Dotted × PostDotItems)) (finished : Bool) :
    ∃ drained : List EarleyItem,
      (complete g earley_sets tbc leo_items leo_items_buffer postdot_items []
        finished).1 =
        earley_sets.dropLast ++ [earley_sets.getLastD [] ++ drained] ∧
      drained.Nodup := by
  refine ⟨(complete_loop g postdot_items
    (get_nonterminals_size g * (earley_sets.length + 1) + 1) tbc
    (leo_items_buffer, leo_items, [], [], finished)).2.2.1, rfl, ?_⟩
  exact complete_loop_nodup g postdot_items _ tbc _ (by simp)

/-- Membership in a deduplicating insert. -/
theorem set_insert_subset {α : Type} [DecidableEq α] (s : List α) (a b : α)
    (h : b ∈ s) : b ∈ set_insert s a := by
  unfold set_insert
  split
  · exact h
  · exact List.mem_append_left _ h

/-- The inserted element is a member of a deduplicating insert. -/
theorem set_insert_mem_self {α : Type} [DecidableEq α] (s : List α) (a : α) :
    a ∈ set_insert s a := by
  unfold set_insert
  split
  · assumption
  · exact List.mem_append_right _ (by simp)

/-- Every member of a deduplicating insert is the inserted element or an
old member. -/
theorem set_insert_mem {α : Type} [DecidableEq α] (s : List α) (a b : α)
    (h : b ∈ set_insert s a) : b = a ∨ b ∈ s := by
  unfold set_insert at h
  split at h
  · exact Or.inr h
  · rcases List.mem_append.mp h with h | h
    · exact Or.inr h
    · exact Or.inl (by simpa using h)

/-- Key search skips a prefix containing no matching key. -/
theorem find_key_append {κ ν : Type} [DecidableEq κ] (m n : List (κ × ν))
    (k : κ) (hm : ∀ p ∈ m, p.1 ≠ k) :
    (m ++ n).find? (fun p => decide (p.1 = k)) =
      n.find? (fun p => decide (p.1 = k)) := by
  induction m with
  | nil => rfl
  | cons a m ih =>
      have ha : ¬ (a.1 = k) := hm a (by simp)
      rw [List.cons_append, List.find?_cons_of_neg _ (by simp [ha])]
      exact ih (fun p hp => hm p (by simp [hp]))

/-- Lookup skips a prefix containing no matching key. -/
theorem alist_get_append_right {κ ν : Type} [DecidableEq κ]
    (m n : List (κ × ν)) (k : κ) (hm : ∀ p ∈ m, p.1 ≠ k) :
    alist_get (m ++ n) k = alist_get n k := by
  unfold alist_get
  rw [find_key_append m n k hm]

/-- Updating a key found after a fresh prefix leaves the prefix intact. -/
theorem alist_insert_append_new {κ ν : Type} [DecidableEq κ]
    (m n : List (κ × ν)) (k : κ) (v : ν) (hm : ∀ p ∈ m, p.1 ≠ k) :
    alist_insert (m ++ n) k v = m ++ alist_insert n k v := by
  unfold alist_insert
  rw [find_key_append m n k hm]
  split
  · rw [List.map_append]
    congr 1
    have hmap : List.map (fun p => if p.1 = k then (k, v) else p) m =
        List.map id m :=
      List.map_congr_left (fun p hp => by simp [hm p hp])
    rw [hmap, List.map_id]
  · rw [List.append_assoc]

/-- Every entry of an insert result carries the inserted key or is an old
entry. -/
theorem alist_insert_mem {κ ν : Type} [DecidableEq κ] (m : List (κ × ν))
    (k : κ) (v : ν) (p : κ × ν) (h : p ∈ alist_insert m k v) :
    p.1 = k ∨ p ∈ m := by
  unfold alist_insert at h
  split at h
  · obtain ⟨q, hq, hpq⟩ := List.mem_map.mp h
    by_cases hk : q.1 = k
    · left; rw [← hpq]; simp [hk]
    · right; rw [← hpq]; simpa [hk] using hq
  · rcases List.mem_append.mp h with h | h
    · exact Or.inr h
    · left; simp at h; rw [h]

/-- A fold of key removals is a filter. -/
theorem foldl_alist_remove_filter {κ ν : Type} [DecidableEq κ]
    (ks : List κ) : ∀ (m : List (κ × ν)),
    ks.foldl alist_remove m = m.filter (fun p => decide (p.1 ∉ ks)) := by
  induction ks with
  | nil => intro m; simp
  | cons k ks ih =>
      intro m
      simp only [List.foldl_cons, ih, alist_remove, List.filter_filter]
      apply List.filter_congr
      intro p _
      by_cases h1 : p.1 = k <;> by_cases h2 : p.1 ∈ ks <;> simp [h1, h2]

/-- Reverting removes exactly the appended new entries: removing every key
of the since-last-commit set from a postdot index that is the base index
plus tracked fresh entries restores the base index. -/
theorem foldl_alist_remove_restore {κ ν : Type} [DecidableEq κ]
    (ks : List κ) (p0 np : List (κ × ν))
    (hfresh : ∀ k ∈ ks, ∀ p ∈ p0, p.1 ≠ k)
    (hnp : ∀ p ∈ np, p.1 ∈ ks) :
    ks.foldl alist_remove (p0 ++ np) = p0 := by
  rw [foldl_alist_remove_filter, List.filter_append]
  have h1 : p0.filter (fun p => decide (p.1 ∉ ks)) = p0 := by
    rw [List.filter_eq_self]
    intro p hp
    simp only [decide_eq_true_eq]
    intro hk
    exact hfresh p.1 hk p hp rfl
  have h2 : np.filter (fun p => decide (p.1 ∉ ks)) = [] := by
    rw [List.filter_eq_nil]
    intro p hp
    simp only [decide_eq_true_eq, not_not]
    exact hnp p hp
  rw [h1, h2, List.append_nil]

/-- The Scan stage appends exactly one new Earley set. -/
theorem scan_shape (g : Grammar) (earley_sets : List (List EarleyItem))
    (tbc : List ToBeCompletedItem) (byte : Nat)
    (sets' : List (List EarleyItem)) (tbc' : List ToBeCompletedItem)
    (h : scan g earley_sets tbc byte = some (sets', tbc')) :
    ∃ row, sets' = earley_sets ++ [row] := by
  simp only [scan, Option.bind_eq_bind] at h
  cases hf : (earley_sets.getLastD []).foldlM (scan_item g byte) ([], tbc) with
  | none => rw [hf] at h; simp at h
  | some res =>
      rw [hf] at h
      simp only [Option.some_bind, Option.some.injEq, Prod.mk.injEq] at h
      exact ⟨res.1, h.1.symm⟩

/-- A successful lookup has a witnessing entry. -/
theorem alist_get_some_key {κ ν : Type} [DecidableEq κ] (m : List (κ × ν))
    (k : κ) (v : ν) (h : alist_get m k = some v) : ∃ p ∈ m, p.1 = k := by
  unfold alist_get at h
  cases hf : m.find? (fun p => decide (p.1 = k)) with
  | none => rw [hf] at h; simp at h
  | some p =>
      refine ⟨p, List.mem_of_find?_eq_some hf, ?_⟩
      have := List.find?_some hf
      simpa using this

/-- A failed lookup means the key search fails. -/
theorem alist_get_none_find {κ ν : Type} [DecidableEq κ] (m : List (κ × ν))
    (k : κ) (h : alist_get m k = none) :
    m.find? (fun p => decide (p.1 = k)) = none := by
  unfold alist_get at h
  exact Option.map_eq_none'.mp h

/-- A demotion that leaves an entry Leo-eligible certifies the Leo
completeness condition. -/
theorem demote_out_leo (g : Grammar) (v : PostDotItems) (it : EarleyItem)
    (h : update_postdot_items_demote g v = PostDotItems.LeoEligible it) :
    v = PostDotItems.LeoEligible it ∧
      item_should_be_completed g it.nonterminal_id (it.dot_position + 1)
        it.production_index = true := by
  cases v with
  | NormalItems items => simp [update_postdot_items_demote] at h
  | LeoEligible it0 =>
      simp only [update_postdot_items_demote] at h
      split at h
      · simp at h
      · next hcond =>
          cases h
          exact ⟨rfl, by simpa using hcond⟩

/-- Demotion is the identity on an entry already satisfying the Leo
completeness condition. -/
theorem demote_entry_id (g : Grammar) (p : Dotted × PostDotItems)
    (h : ∀ it, p.2 = PostDotItems.LeoEligible it →
      item_should_be_completed g it.nonterminal_id (it.dot_position + 1)
        it.production_index = true) :
    (p.1, update_postdot_items_demote g p.2) = p := by
  obtain ⟨k, v⟩ := p
  cases v with
  | NormalItems items => rfl
  | LeoEligible it =>
      simp only [update_postdot_items_demote]
      rw [if_neg (by simp [h it rfl])]

/-- One step of the postdot-recording fold preserves the recording
invariant and only grows the added set. -/
theorem update_postdot_record_step (g : Grammar)
    (p0 : List (Dotted × PostDotItems)) (len0 slen idx : Nat)
    (st : List (Dotted × PostDotItems) × List Dotted) (item : EarleyItem)
    (hp0 : ∀ p ∈ p0, p.1.column < len0)
    (hidx : len0 ≤ idx) (hidx2 : idx < slen)
    (hst : RecordInv p0 len0 slen st) :
    RecordInv p0 len0 slen (update_postdot_items_record g idx st item) ∧
      ∀ k ∈ st.2, k ∈ (update_postdot_items_record g idx st item).2 := by
  obtain ⟨np, hsplit, hnp, hfresh⟩ := hst
  obtain ⟨m, added⟩ := st
  simp only at hsplit hnp hfresh
  subst hsplit
  unfold update_postdot_items_record
  cases hnode : get_node g item.nonterminal_id item.dot_position
    item.production_index with
  | Nonterminal n =>
      have hkey : ∀ p ∈ p0, p.1 ≠ (⟨n, idx⟩ : Dotted) := by
        intro p hp hk
        have := hp0 p hp
        rw [hk] at this
        simp only at this
        omega
      dsimp only
      rw [alist_get_append_right p0 np _ hkey]
      cases hget : alist_get np ⟨n, idx⟩ with
      | some v =>
          obtain ⟨q, hqm, hqk⟩ := alist_get_some_key np _ _ hget
          have hktrack : (⟨n, idx⟩ : Dotted) ∈ added := by
            rw [← hqk]; exact (hnp q hqm).1
          cases v with
          | LeoEligible old_item =>
              refine ⟨⟨alist_insert np ⟨n, idx⟩
                (PostDotItems.NormalItems [old_item, item]), ?_, ?_, hfresh⟩,
                fun k hk => hk⟩
              · exact alist_insert_append_new p0 np _ _ hkey
              · intro p hp
                rcases alist_insert_mem np _ _ p hp with h | h
                · rw [h]; exact ⟨hktrack, hidx, hidx2⟩
                · exact hnp p h
          | NormalItems items =>
              refine ⟨⟨alist_insert np ⟨n, idx⟩
                (PostDotItems.NormalItems (items ++ [item])), ?_, ?_, hfresh⟩,
                fun k hk => hk⟩
              · exact alist_insert_append_new p0 np _ _ hkey
              · intro p hp
                rcases alist_insert_mem np _ _ p hp with h | h
                · rw [h]; exact ⟨hktrack, hidx, hidx2⟩
                · exact hnp p h
      | none =>
          have hfind : (p0 ++ np).find?
              (fun p => decide (p.1 = (⟨n, idx⟩ : Dotted))) = none := by
            rw [find_key_append p0 np _ hkey]
            exact alist_get_none_find np _ hget
          simp only [alist_insert, hfind, Option.isSome_none,
            Bool.false_eq_true, if_false]
          refine ⟨⟨np ++ [(⟨n, idx⟩, PostDotItems.LeoEligible item)],
            by rw [List.append_assoc], ?_, ?_⟩, ?_⟩
          · intro p hp
            rcases List.mem_append.mp hp with h | h
            · obtain ⟨h1, h2, h3⟩ := hnp p h
              exact ⟨set_insert_subset added _ _ h1, h2, h3⟩
            · simp only [List.mem_singleton] at h
              rw [h]
              exact ⟨set_insert_mem_self added _, hidx, hidx2⟩
          · intro k hk p hp
            rcases set_insert_mem added _ _ hk with h | h
            · rw [h]; exact hkey p hp
            · exact hfresh k h p hp
          · intro k hk
            exact set_insert_subset added _ _ hk
  | Terminal t => exact ⟨⟨np, rfl, hnp, hfresh⟩, fun k hk => hk⟩
  | RegexString r => exact ⟨⟨np, rfl, hnp, hfresh⟩, fun k hk => hk⟩
  | EXCEPT x y => exact ⟨⟨np, rfl, hnp, hfresh⟩, fun k hk => hk⟩

/-- The postdot-recording fold preserves the recording invariant and only
grows the added set. -/
theorem update_postdot_record_fold (g : Grammar)
    (p0 : List (Dotted × PostDotItems)) (len0 slen idx : Nat)
    (hp0 : ∀ p ∈ p0, p.1.column < len0)
    (hidx : len0 ≤ idx) (hidx2 : idx < slen) :
    ∀ (row : List EarleyItem) (st : List (Dotted × PostDotItems) × List Dotted),
    RecordInv p0 len0 slen st →
    RecordInv p0 len0 slen
      (row.foldl (update_postdot_items_record g idx) st) ∧
      ∀ k ∈ st.2, k ∈ (row.foldl (update_postdot_items_record g idx) st).2 := by
  intro row
  induction row with
  | nil => intro st hst; exact ⟨hst, fun k hk => hk⟩
  | cons item rest ih =>
      intro st hst
      simp only [List.foldl_cons]
      have h1 := update_postdot_record_step g p0 len0 slen idx st item hp0
        hidx hidx2 hst
      have h2 := ih _ h1.1
      exact ⟨h2.1, fun k hk => h2.2 k (h1.2 k hk)⟩

/-- The Postdot-update stage on a chart longer than the base length: the
base index is untouched, every new entry is tracked and lives in a new
column, the tracked keys stay fresh for the base, and the resulting index
satisfies the column-bound and Leo invariants. -/
theorem update_postdot_items_probe (g : Grammar)
    (sets : List (List EarleyItem)) (p0 np : List (Dotted × PostDotItems))
    (added : List Dotted) (len0 : Nat)
    (hp0col : ∀ p ∈ p0, p.1.column < len0)
    (hlen : len0 < sets.length)
    (hnp : ∀ p ∈ np, p.1 ∈ added ∧ len0 ≤ p.1.column ∧
      p.1.column < sets.length)
    (hadded : ∀ k ∈ added, ∀ p ∈ p0, p.1 ≠ k)
    (hp0leo : ∀ p ∈ p0, ∀ it, p.2 = PostDotItems.LeoEligible it →
      item_should_be_completed g it.nonterminal_id (it.dot_position + 1)
        it.production_index = true) :
    ∃ np', update_postdot_items g sets (p0 ++ np) added =
      (p0 ++ np', (update_postdot_items g sets (p0 ++ np) added).2) ∧
      (∀ p ∈ np', p.1 ∈ (update_postdot_items g sets (p0 ++ np) added).2 ∧
        len0 ≤ p.1.column ∧ p.1.column < sets.length) ∧
      (∀ k ∈ (update_postdot_items g sets (p0 ++ np) added).2,
        ∀ p ∈ p0, p.1 ≠ k) ∧
      (∀ p ∈ p0 ++ np', ∀ it, p.2 = PostDotItems.LeoEligible it →
        item_should_be_completed g it.nonterminal_id (it.dot_position + 1)
          it.production_index = true) ∧
      (∀ k ∈ added, k ∈ (update_postdot_items g sets (p0 ++ np) added).2) := by
  have hidx : len0 ≤ sets.length - 1 := by omega
  have hidx2 : sets.length - 1 < sets.length := by omega
  have hfold := update_postdot_record_fold g p0 len0 sets.length
    (sets.length - 1) hp0col hidx hidx2 (sets.getLastD [])
    (p0 ++ np, added) ⟨np, rfl, hnp, hadded⟩
  obtain ⟨⟨np2, hsplit, hnp2, hfresh2⟩, hgrow⟩ := hfold
  unfold update_postdot_items
  dsimp only
  rw [hsplit, List.map_append]
  have hmapid : List.map (fun p => (p.1, update_postdot_items_demote g p.2))
      p0 = List.map id p0 := by
    apply List.map_congr_left
    intro p hp
    rw [demote_entry_id g p (fun it h => hp0leo p hp it h)]
    rfl
  rw [hmapid, List.map_id]
  refine ⟨List.map (fun p => (p.1, update_postdot_items_demote g p.2)) np2,
    rfl, ?_, hfresh2, ?_, hgrow⟩
  · intro p hp
    obtain ⟨q, hq, hpq⟩ := List.mem_map.mp hp
    rw [← hpq]
    exact hnp2 q hq
  · intro p hp it hleo
    rcases List.mem_append.mp hp with h | h
    · exact hp0leo p h it hleo
    · obtain ⟨q, hq, hpq⟩ := List.mem_map.mp h
      have : update_postdot_items_demote g q.2 = PostDotItems.LeoEligible it := by
        rw [← hleo, ← hpq]
      exact (demote_out_leo g q.2 it this).2

/-- Exhaustive case analysis of one `accept_byte` step: it aborts, rejects
a finished recognizer, rejects a stranded Scan, or performs the full
Scan-Complete-Predict-Postdot pipeline. -/
theorem accept_byte_cases (g : Grammar) (e : EngineState) (len byte : Nat) :
    accept_byte g e len byte = none ∨
    (e.finished = true ∧
      accept_byte g e len byte =
        some (ByteStepResult.rejected (revert_change e len))) ∨
    (∃ s1 s2, e.finished = false ∧
      scan g e.earley_sets e.to_be_completed_items byte = some (s1, s2) ∧
      is_rejected s1 s2 = true ∧
      accept_byte g e len byte = some (ByteStepResult.rejected
        (revert_change { e with earley_sets := s1, to_be_completed_items := s2 } len))) ∨
    (∃ s1 s2, e.finished = false ∧
      scan g e.earley_sets e.to_be_completed_items byte = some (s1, s2) ∧
      is_rejected s1 s2 = false ∧
      accept_byte g e len byte = some (ByteStepResult.ok
        { e with
          earley_sets := (predict g (complete g s1 s2 e.leo_items
            e.leo_items_buffer e.postdot_items e.deduplication_buffer
            e.finished).1 e.already_predicted_nonterminals).1
          to_be_completed_items := []
          to_be_completed_items_buffer := []
          deduplication_buffer := []
          leo_items := (complete g s1 s2 e.leo_items e.leo_items_buffer
            e.postdot_items e.deduplication_buffer e.finished).2.1
          leo_items_buffer := (complete g s1 s2 e.leo_items e.leo_items_buffer
            e.postdot_items e.deduplication_buffer e.finished).2.2.1
          finished := (complete g s1 s2 e.leo_items e.leo_items_buffer
            e.postdot_items e.deduplication_buffer e.finished).2.2.2
          already_predicted_nonterminals := (predict g (complete g s1 s2
            e.leo_items e.leo_items_buffer e.postdot_items
            e.deduplication_buffer e.finished).1
            e.already_predicted_nonterminals).2
          postdot_items := (update_postdot_items g (predict g (complete g s1 s2
            e.leo_items e.leo_items_buffer e.postdot_items
            e.deduplication_buffer e.finished).1
            e.already_predicted_nonterminals).1 e.postdot_items
            e.postdot_items_since_last_commit).1
          postdot_items_since_last_commit := (update_postdot_items g
            (predict g (complete g s1 s2 e.leo_items e.leo_items_buffer
              e.postdot_items e.deduplication_buffer e.finished).1
              e.already_predicted_nonterminals).1 e.postdot_items
            e.postdot_items_since_last_commit).2 })) := by
  by_cases hf : e.finished = true
  · exact Or.inr (Or.inl ⟨hf, by simp [accept_byte, hf]⟩)
  · simp only [Bool.not_eq_true] at hf
    cases hs : scan g e.earley_sets e.to_be_completed_items byte with
    | none => exact Or.inl (by simp [accept_byte, hf, hs])
    | some s =>
        obtain ⟨s1, s2⟩ := s
        by_cases hrj : is_rejected s1 s2 = true
        · refine Or.inr (Or.inr (Or.inl ⟨s1, s2, hf, rfl, hrj, ?_⟩))
          simp [accept_byte, hf, hs, hrj]
        · simp only [Bool.not_eq_true] at hrj
          refine Or.inr (Or.inr (Or.inr ⟨s1, s2, hf, rfl, hrj, ?_⟩))
          simp [accept_byte, hf, hs, hrj]

/-- A restored core satisfies the probe invariant whenever the base state
satisfies the structural postdot invariants. -/
theorem core_to_probe (g : Grammar) (e0 e : EngineState)
    (hcol0 : HColumns e0) (hleo0 : HLeo g e0) (h : CoreRestored e0 e) :
    ProbeInv g e0 e := by
  obtain ⟨hsets, hpd, hsince, _, htbc, hded⟩ := h
  refine ⟨⟨[], by simp [hsets]⟩, ⟨[], by simp [hpd], by simp⟩, ?_, htbc, hded,
    ?_, ?_⟩
  · intro k hk
    rw [hsince] at hk
    simp at hk
  · intro p hp
    rw [hpd] at hp
    rw [hsets]
    exact hcol0 p hp
  · intro p hp
    rw [hpd] at hp
    exact hleo0 p hp

/-- A state at a public-call boundary satisfies the probe invariant
relative to itself. -/
theorem probe_inv_self (g : Grammar) (e : EngineState)
    (hb : BoundaryInv g e) : ProbeInv g e e := by
  obtain ⟨hsince, htbc, hded, hcol, hleo⟩ := hb
  refine ⟨⟨[], by simp⟩, ⟨[], by simp, by simp⟩, ?_, htbc, hded, hcol, hleo⟩
  intro k hk
  rw [hsince] at hk
  simp at hk

/-- Reverting a probe-extended state to the base chart length restores the
pre-probe core exactly. -/
theorem revert_change_restores (g : Grammar) (e0 e : EngineState)
    (hcol0 : HColumns e0) (hleo0 : HLeo g e0) (hinv : ProbeInv g e0 e) :
    CoreRestored e0 (revert_change e e0.earley_sets.length) := by
  obtain ⟨⟨extra, hext⟩, ⟨np, hsplit, hnp⟩, hfresh, htbc, hded, hcol, hleo⟩ :=
    hinv
  unfold revert_change CoreRestored
  refine ⟨?_, ?_, rfl, rfl, htbc, hded⟩
  · dsimp only
    rw [hext, List.take_left]
  · dsimp only
    rw [hsplit]
    exact foldl_alist_remove_restore e.postdot_items_since_last_commit
      e0.postdot_items np (fun k hk p hp => hfresh k hk p hp)
      (fun p hp => (hnp p hp).1)

/-- One `accept_byte` during a probe: a successful step preserves the
probe invariant; a rejected step additionally restores the pre-probe
core. -/
theorem accept_byte_probe (g : Grammar) (e0 e : EngineState) (byte : Nat)
    (hcol0 : HColumns e0) (hleo0 : HLeo g e0)
    (hinv : ProbeInv g e0 e) :
    ∀ r, accept_byte g e e0.earley_sets.length byte = some r →
      (∀ e', r = ByteStepResult.ok e' → ProbeInv g e0 e') ∧
      (∀ e', r = ByteStepResult.rejected e' →
        ProbeInv g e0 e' ∧ CoreRestored e0 e') := by
  intro r hr
  rcases accept_byte_cases g e e0.earley_sets.length byte with h | h | h | h
  · rw [h] at hr; cases hr
  · obtain ⟨hf, heq⟩ := h
    rw [heq] at hr
    cases hr
    have hc := revert_change_restores g e0 e hcol0 hleo0 hinv
    constructor
    · intro e' he
      cases he
    · intro e' he
      cases he
      exact ⟨core_to_probe g e0 _ hcol0 hleo0 hc, hc⟩
  · obtain ⟨s1, s2, hf, hs, hrj, heq⟩ := h
    rw [heq] at hr
    cases hr
    obtain ⟨row, hrow⟩ := scan_shape g e.earley_sets e.to_be_completed_items
      byte s1 s2 hs
    have hs2 : s2 = [] := by
      have := of_decide_eq_true hrj
      exact List.isEmpty_iff.mp this.2
    have hinv2 : ProbeInv g e0
        { e with earley_sets := s1, to_be_completed_items := s2 } := by
      obtain ⟨⟨extra, hext⟩, ⟨np, hsplit, hnp⟩, hfresh, htbc, hded, hcol,
        hleo⟩ := hinv
      refine ⟨⟨extra ++ [row], by simp [hrow, hext]⟩,
        ⟨np, hsplit, hnp⟩, hfresh, hs2, hded, ?_, hleo⟩
      intro p hp
      have := hcol p hp
      simp only [hrow, List.length_append, List.length_singleton]
      omega
    have hc := revert_change_restores g e0 _ hcol0 hleo0 hinv2
    constructor
    · intro e' he
      cases he
    · intro e' he
      cases he
      exact ⟨core_to_probe g e0 _ hcol0 hleo0 hc, hc⟩
  · obtain ⟨s1, s2, hf, hs, hrj, heq⟩ := h
    rw [heq] at hr
    cases hr
    constructor
    case right => intro e' he; cases he
    case left =>
    intro e' he
    cases he
    obtain ⟨row, hrow⟩ := scan_shape g e.earley_sets e.to_be_completed_items
      byte s1 s2 hs
    obtain ⟨⟨extra, hext⟩, ⟨np, hsplit, hnp⟩, hfresh, htbc, hded, hcol,
      hleo⟩ := hinv
    have hc1 : (complete g s1 s2 e.leo_items e.leo_items_buffer
        e.postdot_items e.deduplication_buffer e.finished).1 =
        s1.dropLast ++ [s1.getLastD [] ++ (complete_loop g e.postdot_items
          (get_nonterminals_size g * (s1.length + 1) + 1) s2
          (e.leo_items_buffer, e.leo_items, [], e.deduplication_buffer,
            e.finished)).2.2.1] := rfl
    have hp1 : ∀ (A : List (List EarleyItem)) (al : List Nat),
        ∃ row2, (predict g A al).1 = A.dropLast ++ [row2] ∧
          (predict g A al).2 = [] := by
      intro A al
      exact ⟨_, rfl, rfl⟩
    obtain ⟨row2, hrow2, hal2⟩ := hp1 (complete g s1 s2 e.leo_items
      e.leo_items_buffer e.postdot_items e.deduplication_buffer e.finished).1
      e.already_predicted_nonterminals
    have hsets_pred : (predict g (complete g s1 s2 e.leo_items
        e.leo_items_buffer e.postdot_items e.deduplication_buffer
        e.finished).1 e.already_predicted_nonterminals).1 =
        e0.earley_sets ++ (extra ++ [row2]) := by
      rw [hrow2, hc1, List.dropLast_concat, hrow, hext]
      rw [show e0.earley_sets ++ extra ++ [row] =
        (e0.earley_sets ++ extra) ++ [row] from rfl, List.dropLast_concat,
        List.append_assoc]
    have hlen_pred : e0.earley_sets.length <
        (predict g (complete g s1 s2 e.leo_items e.leo_items_buffer
          e.postdot_items e.deduplication_buffer e.finished).1
          e.already_predicted_nonterminals).1.length := by
      rw [hsets_pred]
      simp
    have hnp2 : ∀ p ∈ np, p.1 ∈ e.postdot_items_since_last_commit ∧
        e0.earley_sets.length ≤ p.1.column ∧
        p.1.column < (predict g (complete g s1 s2 e.leo_items
          e.leo_items_buffer e.postdot_items e.deduplication_buffer
          e.finished).1 e.already_predicted_nonterminals).1.length := by
      intro p hp
      obtain ⟨h1, h2⟩ := hnp p hp
      refine ⟨h1, h2, ?_⟩
      have h3 := hcol p (by rw [hsplit]; exact List.mem_append_right _ hp)
      rw [hsets_pred]
      rw [hext] at h3
      simp only [List.length_append] at h3 ⊢
      omega
    obtain ⟨np2, hu_split, hnp3, hfresh3, hleo3, hgrow3⟩ :=
      update_postdot_items_probe g
        (predict g (complete g s1 s2 e.leo_items e.leo_items_buffer
          e.postdot_items e.deduplication_buffer e.finished).1
          e.already_predicted_nonterminals).1
        e0.postdot_items np e.postdot_items_since_last_commit
        e0.earley_sets.length hcol0 hlen_pred hnp2 hfresh
        (fun p hp it hl => hleo0 p hp it hl)
    rw [← hsplit] at hu_split
    rw [← hsplit] at hnp3
    rw [← hsplit] at hfresh3
    rw [← hsplit] at hgrow3
    have hufst : (update_postdot_items g (predict g (complete g s1 s2
        e.leo_items e.leo_items_buffer e.postdot_items e.deduplication_buffer
        e.finished).1 e.already_predicted_nonterminals).1 e.postdot_items
        e.postdot_items_since_last_commit).1 = e0.postdot_items ++ np2 :=
      congrArg Prod.fst hu_split
    refine ⟨⟨extra ++ [row2], by simpa using hsets_pred⟩, ⟨np2, hufst, ?_⟩,
      ?_, rfl, rfl, ?_, ?_⟩
    · intro p hp
      exact ⟨(hnp3 p hp).1, (hnp3 p hp).2.1⟩
    · intro k hk p hp
      exact hfresh3 k hk p hp
    · intro p hp
      dsimp only at hp
      rw [hufst] at hp
      rcases List.mem_append.mp hp with hmem | hmem
      · have h4 := hcol0 p hmem
        dsimp only
        omega
      · exact (hnp3 p hmem).2.2
    · intro p hp it hit
      dsimp only at hp
      rw [hufst] at hp
      exact hleo3 p hp it hit

/-- The byte loop of a probe preserves the probe invariant; a rejection
additionally restores the pre-probe core. -/
theorem feed_bytes_probe (g : Grammar) (e0 : EngineState)
    (hcol0 : HColumns e0) (hleo0 : HLeo g e0) :
    ∀ (bytes : List Nat) (e : EngineState), ProbeInv g e0 e →
    ∀ r, feed_bytes g e e0.earley_sets.length bytes = some r →
      (∀ e', r = ByteStepResult.ok e' → ProbeInv g e0 e') ∧
      (∀ e', r = ByteStepResult.rejected e' →
        ProbeInv g e0 e' ∧ CoreRestored e0 e') := by
  intro bytes
  induction bytes with
  | nil =>
      intro e hinv r hr
      unfold feed_bytes at hr
      cases hr
      refine ⟨?_, ?_⟩
      · intro e' he
        cases he
        exact hinv
      · intro e' he
        cases he
  | cons byte rest ih =>
      intro e hinv r hr
      unfold feed_bytes at hr
      cases ha : accept_byte g e e0.earley_sets.length byte with
      | none =>
          rw [ha] at hr
          cases hr
      | some rb =>
          rw [ha] at hr
          have hstep := accept_byte_probe g e0 e byte hcol0 hleo0 hinv rb ha
          cases rb with
          | ok e1 =>
              exact ih e1 (hstep.1 e1 rfl) r hr
          | rejected e1 =>
              cases hr
              refine ⟨?_, ?_⟩
              · intro e' he
                cases he
              · intro e' he
                cases he
                exact hstep.2 e1 rfl

/-- The probe loop and the fast-forward loop preserve the probe invariant;
both terminate in a state whose core is restored to the pre-probe core. -/
theorem probe_walk_core (g : Grammar) (e0 : EngineState)
    (hcol0 : HColumns e0) (hleo0 : HLeo g e0) :
    ∀ (n : Nat) (events : List TokenIterItem), events.length ≤ n →
      (∀ cur e, ProbeInv g e0 e →
        ∀ e', probe_loop g e0.earley_sets.length events cur e = some e' →
          ProbeInv g e0 e' ∧ CoreRestored e0 e') ∧
      (∀ e, ProbeInv g e0 e → CoreRestored e0 e →
        ∀ e', probe_skip_loop g e0.earley_sets.length events e = some e' →
          ProbeInv g e0 e' ∧ CoreRestored e0 e') := by
  intro n
  induction n with
  | zero =>
      intro events hlen
      have hnil : events = [] := List.eq_nil_of_length_eq_zero
        (Nat.le_zero.mp hlen)
      subst hnil
      constructor
      · intro cur e hinv e' he'
        unfold probe_loop at he'
        cases he'
        have hc := revert_change_restores g e0 e hcol0 hleo0 hinv
        exact ⟨core_to_probe g e0 _ hcol0 hleo0 hc, hc⟩
      · intro e hinv hcore e' he'
        unfold probe_skip_loop at he'
        cases he'
        exact ⟨hinv, hcore⟩
  | succ n ih =>
      intro events hlen
      cases events with
      | nil => exact ih [] (by simp)
      | cons ev rest =>
          have hrest : rest.length ≤ n := by
            simp only [List.length_cons] at hlen
            omega
          constructor
          · intro cur e hinv e' he'
            cases ev with
            | token_byte byte =>
                unfold probe_loop at he'
                cases ha : accept_byte g e e0.earley_sets.length byte with
                | none => rw [ha] at he'; cases he'
                | some rb =>
                    rw [ha] at he'
                    have hstep := accept_byte_probe g e0 e byte hcol0 hleo0
                      hinv rb ha
                    cases rb with
                    | ok e1 =>
                        exact (ih rest hrest).1 cur e1 (hstep.1 e1 rfl) e' he'
                    | rejected e1 =>
                        obtain ⟨hp1, hc1⟩ := hstep.2 e1 rfl
                        exact (ih rest hrest).2 e1 hp1 hc1 e' he'
            | new_token nid =>
                unfold probe_loop at he'
                dsimp only at he'
                have hcore := revert_change_restores g e0 e hcol0 hleo0 hinv
                cases cur with
                | none =>
                    exact (ih rest hrest).1 nid _
                      (core_to_probe g e0 _ hcol0 hleo0 hcore) e' he'
                | some tid =>
                    dsimp only at he'
                    obtain ⟨h1, h2, h3, h4, h5, h6⟩ := hcore
                    exact (ih rest hrest).1 nid { revert_change e e0.earley_sets.length with allowed_token_ids := set_insert (revert_change e e0.earley_sets.length).allowed_token_ids tid } (core_to_probe g e0 { revert_change e e0.earley_sets.length with allowed_token_ids := set_insert (revert_change e e0.earley_sets.length).allowed_token_ids tid } hcol0 hleo0 ⟨h1, h2, h3, h4, h5, h6⟩) e' he'
          · intro e hinv hcore e' he'
            cases ev with
            | token_byte byte =>
                unfold probe_skip_loop at he'
                exact (ih rest hrest).2 e hinv hcore e' he'
            | new_token nid =>
                unfold probe_skip_loop at he'
                exact (ih rest hrest).1 nid e hinv e' he'

/-- A monadic fold over `Option` preserves any invariant its step function
preserves. -/
theorem foldlM_preserve {α : Type} (P : EngineState → Prop)
    (f : EngineState → α → Option EngineState)
    (hf : ∀ e a e', P e → f e a = some e' → P e') :
    ∀ (l : List α) (e : EngineState), P e →
      ∀ e', l.foldlM f e = some e' → P e' := by
  intro l
  induction l with
  | nil =>
      intro e hp e' he'
      cases he'
      exact hp
  | cons a rest ih =>
      intro e hp e' he'
      rw [List.foldlM_cons] at he'
      cases hfa : f e a with
      | none => rw [hfa] at he'; cases he'
      | some e1 =>
          rw [hfa] at he'
          exact ih e1 (hf e a e1 hp hfa) e' he'

/-- C3: when `try_accept_new_token` returns an error, the chart is left
unchanged.  On `Rejected` the chart, the postdot index and the `finished`
flag are rolled back to their pre-call values with the since-last-commit
tracking cleared; on `Finished` or `UnknownTokenID` the state is returned
exactly as it was. -/
theorem claim_C3_error_implies_rollback (g : Grammar) (v : Vocabulary)
    (e : EngineState) (token_id : Nat) (hb : BoundaryInv g e)
    (e' : EngineState) (err : AcceptTokenError)
    (hr : try_accept_new_token g v e token_id =
      some (e', Except.error err)) :
    (err = AcceptTokenError.Rejected → CoreRestored e e') ∧
    ((err = AcceptTokenError.Finished ∨
        err = AcceptTokenError.UnknownTokenID) → e' = e) := by
  obtain ⟨hsince, htbc, hded, hcol, hleo⟩ := hb
  unfold try_accept_new_token at hr
  by_cases hf : e.finished = true
  · rw [if_pos hf] at hr
    cases hr
    constructor
    · intro hc
      cases hc
    · intro _
      rfl
  · rw [if_neg hf] at hr
    cases hv : get_token_from_token_id v token_id with
    | none =>
        rw [hv] at hr
        dsimp only at hr
        cases hr
        constructor
        · intro hc
          cases hc
        · intro _
          rfl
    | some token =>
        rw [hv] at hr
        dsimp only at hr
        cases hfb : feed_bytes g e e.earley_sets.length token with
        | none =>
            rw [hfb] at hr
            cases hr
        | some rb =>
            rw [hfb] at hr
            cases rb with
            | rejected e1 =>
                cases hr
                have hinv0 := probe_inv_self g e ⟨hsince, htbc, hded, hcol,
                  hleo⟩
                have hstep := feed_bytes_probe g e hcol hleo token e hinv0 _
                  hfb
                constructor
                · intro _
                  exact (hstep.2 e' rfl).2
                · intro hc
                  cases hc with
                  | inl h => cases h
                  | inr h => cases h
            | ok e1 =>
                have hr2 : (if (commit_change e1).finished = true then
                    some (commit_change e1,
                      (Except.ok AcceptTokenResult.Finished :
                        Except AcceptTokenError AcceptTokenResult))
                  else some (commit_change e1,
                    Except.ok AcceptTokenResult.Ongoing)) =
                    some (e', Except.error err) := hr
                by_cases hcf : (commit_change e1).finished = true
                · rw [if_pos hcf] at hr2
                  cases hr2
                · rw [if_neg hcf] at hr2
                  cases hr2

/-- Witness for C3 at a concrete input: the fresh `'ab'` engine with an
out-of-vocabulary token id takes the `UnknownTokenID` branch and the state
is returned unchanged. -/
theorem claim_C3_witness :
    BoundaryInv example_grammar_ab
      (engine_new example_grammar_ab default_config) ∧
    ((AcceptTokenError.UnknownTokenID = AcceptTokenError.Rejected →
        CoreRestored (engine_new example_grammar_ab default_config)
          (engine_new example_grammar_ab default_config)) ∧
      ((AcceptTokenError.UnknownTokenID = AcceptTokenError.Finished ∨
          AcceptTokenError.UnknownTokenID =
            AcceptTokenError.UnknownTokenID) →
        engine_new example_grammar_ab default_config =
          engine_new example_grammar_ab default_config)) := by
  have hb : BoundaryInv example_grammar_ab
      (engine_new example_grammar_ab default_config) := by
    refine ⟨by decide, by decide, by decide, ?_, ?_⟩
    · intro p hp
      cases hp
    · intro p hp it hit
      cases hp
  exact ⟨hb, claim_C3_error_implies_rollback example_grammar_ab
    example_vocabulary_ab (engine_new example_grammar_ab default_config) 99
    hb (engine_new example_grammar_ab default_config)
    AcceptTokenError.UnknownTokenID (by decide)⟩

/-- C4 (amended): `compute_allowed_token_ids` leaves the Earley chart, the
postdot index and the `finished` flag identical to their pre-call values
and clears the since-last-commit tracking and the completion scratch
buffers; its other lasting effects are the allowed-token bitset and the
allowed-first-byte set. -/
theorem claim_C4_amended_frame (g : Grammar) (v : Vocabulary)
    (e : EngineState) (hb : BoundaryInv g e) (e' : EngineState)
    (hr : compute_allowed_token_ids g v e = some e') :
    e'.earley_sets = e.earley_sets ∧ e'.postdot_items = e.postdot_items ∧
    e'.finished = e.finished ∧ e'.postdot_items_since_last_commit = [] ∧
    e'.to_be_completed_items = [] ∧ e'.deduplication_buffer = [] := by
  obtain ⟨hsince, htbc, hded, hcol, hleo⟩ := hb
  unfold compute_allowed_token_ids at hr
  dsimp only at hr
  by_cases hf : e.finished = true
  · rw [if_pos hf] at hr
    cases hr
    exact ⟨rfl, rfl, rfl, hsince, htbc, hded⟩
  · rw [if_neg hf] at hr
    rw [Bool.not_eq_true] at hf
    have hP1 : ProbeInv g e
        (update_allowed_first_bytes g { e with allowed_token_ids := [] }) := by
      refine ⟨⟨[], ?_⟩, ⟨[], ?_, ?_⟩, ?_, htbc, hded, hcol, hleo⟩
      · show e.earley_sets = e.earley_sets ++ []
        simp
      · show e.postdot_items = e.postdot_items ++ []
        simp
      · intro p hp
        cases hp
      · show ∀ k ∈ e.postdot_items_since_last_commit,
          ∀ p ∈ e.postdot_items, p.1 ≠ k
        rw [hsince]
        intro k hk
        cases hk
    have hC1 : CoreRestored e
        (update_allowed_first_bytes g { e with allowed_token_ids := [] }) :=
      ⟨rfl, rfl, hsince, hf, htbc, hded⟩
    have hstep1 : ∀ e2 byte e3, (ProbeInv g e e2 ∧ CoreRestored e e2) →
        probe_loop g e.earley_sets.length
          (get_normal_tokens_from_first_byte v byte) none e2 = some e3 →
        ProbeInv g e e3 ∧ CoreRestored e e3 := by
      intro e2 byte e3 hp hl
      exact (probe_walk_core g e hcol hleo
        (get_normal_tokens_from_first_byte v byte).length
        (get_normal_tokens_from_first_byte v byte) le_rfl).1 none e2 hp.1
        e3 hl
    have hstep2 : ∀ e2 p e3, (ProbeInv g e e2 ∧ CoreRestored e e2) →
        probe_separator_token g e.earley_sets.length e2 p = some e3 →
        ProbeInv g e e3 ∧ CoreRestored e e3 := by
      intro e2 p e3 hp hl
      unfold probe_separator_token at hl
      cases hfb : feed_bytes g e2 e.earley_sets.length p.2 with
      | none =>
          rw [hfb] at hl
          cases hl
      | some rb =>
          rw [hfb] at hl
          have hpr := feed_bytes_probe g e hcol hleo p.2 e2 hp.1 rb hfb
          cases rb with
          | rejected e4 =>
              cases hl
              exact hpr.2 _ rfl
          | ok e4 =>
              cases hl
              have hp4 : ProbeInv g e { e4 with allowed_token_ids := set_insert e4.allowed_token_ids p.1 } := by
                obtain ⟨a, b, c, d, f2, h2, i2⟩ := hpr.1 e4 rfl
                exact ⟨a, b, c, d, f2, h2, i2⟩
              have hc4 := revert_change_restores g e { e4 with allowed_token_ids := set_insert e4.allowed_token_ids p.1 } hcol hleo hp4
              exact ⟨core_to_probe g e _ hcol hleo hc4, hc4⟩
    cases h1 : (byte_set_ones (update_allowed_first_bytes g
        { e with allowed_token_ids := [] }).allowed_first_bytes).foldlM
        (fun e2 byte => probe_loop g e.earley_sets.length
          (get_normal_tokens_from_first_byte v byte) none e2)
        (update_allowed_first_bytes g
          { e with allowed_token_ids := [] }) with
    | none =>
        rw [h1] at hr
        cases hr
    | some ea =>
        rw [h1] at hr
        have hr2 : (v.separator_tokens.foldlM
            (probe_separator_token g e.earley_sets.length) ea >>=
            fun e2 => some (commit_change e2)) = some e' := hr
        have hPa := foldlM_preserve
          (fun x => ProbeInv g e x ∧ CoreRestored e x)
          (fun e2 byte => probe_loop g e.earley_sets.length
            (get_normal_tokens_from_first_byte v byte) none e2)
          (fun e2 byte e3 hp hl => hstep1 e2 byte e3 hp hl)
          (byte_set_ones (update_allowed_first_bytes g
            { e with allowed_token_ids := [] }).allowed_first_bytes)
          (update_allowed_first_bytes g { e with allowed_token_ids := [] })
          ⟨hP1, hC1⟩ ea h1
        cases h2 : v.separator_tokens.foldlM
            (probe_separator_token g e.earley_sets.length) ea with
        | none =>
            rw [h2] at hr2
            cases hr2
        | some eb =>
            rw [h2] at hr2
            have hr3 : some (commit_change eb) = some e' := hr2
            have hPb := foldlM_preserve
              (fun x => ProbeInv g e x ∧ CoreRestored e x)
              (probe_separator_token g e.earley_sets.length)
              (fun e2 p e3 hp hl => hstep2 e2 p e3 hp hl)
              v.separator_tokens ea hPa eb h2
            obtain ⟨hs1, hs2, hs3, hs4, hs5, hs6⟩ := hPb.2
            cases hr3
            refine ⟨hs1, hs2, ?_, rfl, hs5, hs6⟩
            show eb.finished = e.finished
            rw [hs4, hf]

/-- Feeding a concatenation of byte lists splits at the boundary: the
second part runs from the state the first part reached, and a rejection in
the first part short-circuits. -/
theorem feed_bytes_append (g : Grammar) (len : Nat) (ys : List Nat) :
    ∀ (xs : List Nat) (e : EngineState),
      feed_bytes g e len (xs ++ ys) =
        (feed_bytes g e len xs).bind
          (fun r => match r with
            | ByteStepResult.ok e1 => feed_bytes g e1 len ys
            | ByteStepResult.rejected e1 =>
                some (ByteStepResult.rejected e1)) := by
  intro xs
  induction xs with
  | nil =>
      intro e
      rfl
  | cons b rest ih =>
      intro e
      rw [List.cons_append]
      simp only [feed_bytes]
      cases ha : accept_byte g e len b with
      | none => rfl
      | some rb =>
          cases rb with
          | ok e1 => exact ih e1
          | rejected e1 => rfl

/-- C10: a token whose bytes complete the derivation on a proper prefix is
rejected by `try_accept_new_token` with the chart rolled back, because the
byte after the completing prefix hits the `finished` fast-reject of
`accept_byte`; and `Ok(Finished)` is returned exactly when the whole token
is consumed and the state after its final byte is finished. -/
theorem claim_C10_early_finish_rejects (g : Grammar) (v : Vocabulary)
    (e : EngineState) (token_id : Nat) (hb : BoundaryInv g e)
    (hfin : e.finished = false) :
    (∀ token pre byte rest e1,
      get_token_from_token_id v token_id = some token →
      token = pre ++ byte :: rest →
      feed_bytes g e e.earley_sets.length pre =
        some (ByteStepResult.ok e1) →
      e1.finished = true →
      ∃ e', try_accept_new_token g v e token_id =
          some (e', Except.error AcceptTokenError.Rejected) ∧
        CoreRestored e e') ∧
    (∀ e', try_accept_new_token g v e token_id =
        some (e', Except.ok AcceptTokenResult.Finished) →
      ∃ token e1, get_token_from_token_id v token_id = some token ∧
        feed_bytes g e e.earley_sets.length token =
          some (ByteStepResult.ok e1) ∧
        e1.finished = true ∧ e' = commit_change e1) := by
  have hfne : ¬ e.finished = true := by
    rw [hfin]
    exact Bool.false_ne_true
  constructor
  · intro token pre byte rest e1 hv htok hpre hfin1
    have hfeed : feed_bytes g e e.earley_sets.length token =
        some (ByteStepResult.rejected
          (revert_change e1 e.earley_sets.length)) := by
      rw [htok, feed_bytes_append g e.earley_sets.length (byte :: rest) pre
        e, hpre]
      show feed_bytes g e1 e.earley_sets.length (byte :: rest) = _
      unfold feed_bytes
      unfold accept_byte
      rw [if_pos hfin1]
      rfl
    refine ⟨revert_change e1 e.earley_sets.length, ?_, ?_⟩
    · unfold try_accept_new_token
      rw [if_neg hfne, hv]
      dsimp only
      rw [hfeed]
      rfl
    · obtain ⟨hsince, htbc, hded, hcol, hleo⟩ := hb
      have hinv0 := probe_inv_self g e ⟨hsince, htbc, hded, hcol, hleo⟩
      have hstep := feed_bytes_probe g e hcol hleo pre e hinv0 _ hpre
      exact revert_change_restores g e e1 hcol hleo (hstep.1 e1 rfl)
  · intro e' hr
    unfold try_accept_new_token at hr
    rw [if_neg hfne] at hr
    cases hv : get_token_from_token_id v token_id with
    | none =>
        rw [hv] at hr
        dsimp only at hr
        cases hr
    | some token =>
        rw [hv] at hr
        dsimp only at hr
        cases hfb : feed_bytes g e e.earley_sets.length token with
        | none =>
            rw [hfb] at hr
            cases hr
        | some rb =>
            rw [hfb] at hr
            cases rb with
            | rejected e1 => cases hr
            | ok e1 =>
                have hr2 : (if (commit_change e1).finished = true then
                    some (commit_change e1,
                      (Except.ok AcceptTokenResult.Finished :
                        Except AcceptTokenError AcceptTokenResult))
                  else some (commit_change e1,
                    Except.ok AcceptTokenResult.Ongoing)) =
                    some (e', Except.ok AcceptTokenResult.Finished) := hr
                by_cases hcf : (commit_change e1).finished = true
                · rw [if_pos hcf] at hr2
                  cases hr2
                  exact ⟨token, e1, rfl, hfb, hcf, rfl⟩
                · rw [if_neg hcf] at hr2
                  cases hr2

/-- Witness for the amended C4 at a concrete input: on the fresh `'ab'`
engine, `compute_allowed_token_ids` succeeds and leaves the chart, the
postdot index and the `finished` flag unchanged. -/
theorem claim_C4_witness :
    BoundaryInv example_grammar_ab
      (engine_new example_grammar_ab default_config) ∧
    ((compute_allowed_token_ids example_grammar_ab example_vocabulary_ab
        (engine_new example_grammar_ab default_config)).getD
        (engine_new example_grammar_ab default_config)).earley_sets =
      (engine_new example_grammar_ab default_config).earley_sets ∧
    ((compute_allowed_token_ids example_grammar_ab example_vocabulary_ab
        (engine_new example_grammar_ab default_config)).getD
        (engine_new example_grammar_ab default_config)).postdot_items =
      (engine_new example_grammar_ab default_config).postdot_items ∧
    ((compute_allowed_token_ids example_grammar_ab example_vocabulary_ab
        (engine_new example_grammar_ab default_config)).getD
        (engine_new example_grammar_ab default_config)).finished =
      (engine_new example_grammar_ab default_config).finished ∧
    ((compute_allowed_token_ids example_grammar_ab example_vocabulary_ab
        (engine_new example_grammar_ab default_config)).getD
        (engine_new example_grammar_ab default_config)
        ).postdot_items_since_last_commit = [] := by
  have hb : BoundaryInv example_grammar_ab
      (engine_new example_grammar_ab default_config) := by
    refine ⟨by decide, by decide, by decide, ?_, ?_⟩
    · intro p hp
      cases hp
    · intro p hp it hit
      cases hp
  have h := claim_C4_amended_frame example_grammar_ab example_vocabulary_ab
    (engine_new example_grammar_ab default_config) hb
    ((compute_allowed_token_ids example_grammar_ab example_vocabulary_ab
      (engine_new example_grammar_ab default_config)).getD
      (engine_new example_grammar_ab default_config)) (by decide)
  exact ⟨hb, h.1, h.2.1, h.2.2.1, h.2.2.2.1⟩

/-- Witness for C10 at a concrete input: with the grammar `start ::= 'a';`
the token `aa` finishes the derivation after its first byte, and
`try_accept_new_token` rejects it with the chart rolled back. -/
theorem claim_C10_witness :
    BoundaryInv example_grammar_a
      (engine_new example_grammar_a default_config) ∧
    (engine_new example_grammar_a default_config).finished = false ∧
    ∃ e', try_accept_new_token example_grammar_a example_vocabulary_aa
        (engine_new example_grammar_a default_config) 0 =
        some (e', Except.error AcceptTokenError.Rejected) ∧
      CoreRestored (engine_new example_grammar_a default_config) e' := by
  have hb : BoundaryInv example_grammar_a
      (engine_new example_grammar_a default_config) := by
    refine ⟨by decide, by decide, by decide, ?_, ?_⟩
    · intro p hp
      cases hp
    · intro p hp it hit
      cases hp
  refine ⟨hb, by decide, ?_⟩
  exact (claim_C10_early_finish_rejects example_grammar_a
    example_vocabulary_aa (engine_new example_grammar_a default_config) 0
    hb (by decide)).1 [97, 97] [97] 97 []
    { allowed_first_bytes := [], allowed_token_ids := [], earley_sets := [[{ nonterminal_id := 0, dot_position := 0, production_index := 0, start_position := 0, state_id := 0 }], []], to_be_completed_items := [], to_be_completed_items_buffer := [], deduplication_buffer := [], postdot_items := [], postdot_items_since_last_commit := [], leo_items := [], leo_items_buffer := [], already_predicted_nonterminals := [], finished := true, config := { cache_enabled := true, compaction_enabled := true } }
    (by decide) (by decide) (by decide) (by decide)

end Kbnf
